import Mathlib

/-!
# Verification of the kudu binary serialization and ABI decoding engine

The repository's visible Python layer (tests, RPC proxy, wallet) consumes a
native codec engine (`kudu.Name`, `kudu.chain`, `kudu.crypto`) whose source is
not part of the visible tree.  Those components are modelled here from the
specification's algorithm descriptions (name packing, Base58Check key forms,
binary layout of permission levels / actions / transactions, ABI-driven
decoding), pinned down by the literal fixtures of `test_types.py`.  The RPC
subcommand proxy and the development wallet are translated directly from
`python/kudu/__init__.py` and `python/kudu/wallet.py`.

Machine integers are modelled as `Nat` (with explicit `% 2 ^ w` where overflow
matters) and byte strings as `List Nat` with every element below 256.
-/

deriving instance DecidableEq for Except

namespace Kudu

/-! ## Hex rendering of byte strings -/

/-- The sixteen lower-case hex digit characters. -/
def hexDigits : List Char := "0123456789abcdef".data

/-- One byte as two lower-case hex characters, as Python's `bytes.hex()`. -/
def byteHexChars (b : Nat) : List Char :=
  [hexDigits.getD (b / 16) '0', hexDigits.getD (b % 16) '0']

/-- A byte string as its lower-case hex rendering (Python `bytes.hex()`). -/
def bytesToHex (bs : List Nat) : String :=
  ⟨(bs.map byteHexChars).flatten⟩

/-- Value of one hex character, 16 if the character is not a hex digit. -/
def hexCharVal (c : Char) : Nat :=
  hexDigits.indexOf c

/-- Parse a hex string into bytes; fails on odd length or non-hex characters. -/
def hexToBytes (l : List Char) : Option (List Nat) :=
  match l with
  | [] => some []
  | [_] => none
  | hi :: lo :: rest =>
    if hexCharVal hi < 16 ∧ hexCharVal lo < 16 then
      (hexToBytes rest).map (fun bs => (hexCharVal hi * 16 + hexCharVal lo) :: bs)
    else none

/-! ## Name codec

Modelled from the spec: the native `kudu.Name` engine is not in the visible
source.  §4.1: `encode(text)` validates charset membership over the 32-symbol
alphabet `.12345abcdefghijklmnopqrstuvwxyz` ("not normalized" kind on failure)
and length (`> 13` fails with the "longer than 13 characters" kind), then packs
the 5-bit alphabet index of each of the first 12 characters into bits
`[64 - 5*(i+1), 64 - 5*i)` of a 64-bit accumulator, most significant first;
the optional 13th character contributes only its low 4 bits into the lowest
4 bits.  `decode` is the exact inverse, dropping the trailing `'.'` padding
produced by zero bits.  The canonical wire form is the accumulator as a 64-bit
unsigned little-endian integer (§3). -/

/-- The 32-symbol name alphabet, `'.'` denoting 0. -/
def nameAlphabet : List Char := ".12345abcdefghijklmnopqrstuvwxyz".data

/-- 5-bit alphabet index of a character (32 when outside the alphabet). -/
def charIdx (c : Char) : Nat := nameAlphabet.indexOf c

/-- Charset membership in the name alphabet. -/
def charValid (c : Char) : Bool := nameAlphabet.contains c

/-- Character denoted by a 5-bit alphabet index. -/
def idxChar (d : Nat) : Char := nameAlphabet.getD d '.'

/-- The two `InvalidName` failure kinds of §4.1 / §7. -/
inductive NameErr where
  | notNormalized : NameErr
  | tooLong : NameErr
deriving DecidableEq

/-- Pack alphabet indices into the 64-bit accumulator.  The fuel argument is
the number of character positions still available, starting from 13: at fuel
`f + 2` the current character is position `i = 11 - f`, so its 5-bit index
lands at bits `[64 - 5*(i+1), 64 - 5*i) = [5*f + 4, 5*f + 9)`; at fuel 1 it is
the 13th character, contributing only its low 4 bits. -/
def packIdx : List Nat → Nat → Nat
  | [], _ => 0
  | _ :: _, 0 => 0
  | d :: _, 1 => d % 16
  | d :: rest, f + 2 => d * 2 ^ (5 * f + 4) + packIdx rest (f + 1)

/-- Unpack the 64-bit accumulator into the 13 alphabet indices, extracting the
same bit fields as `packIdx` fills. -/
def unpackIdx (v : Nat) : Nat → List Nat
  | 0 => []
  | 1 => [v % 16]
  | f + 2 => v / 2 ^ (5 * f + 4) % 32 :: unpackIdx v (f + 1)

/-- The packed 64-bit accumulator of a list of alphabet indices. -/
def nameIdxEncode (l : List Nat) : Nat := packIdx l 13

/-- The 13 alphabet indices stored in a 64-bit accumulator. -/
def nameIdxDecode (v : Nat) : List Nat := unpackIdx v 13

/-- `encode(text)`: validation then bit packing.  The length bound is checked
before the charset (the `test_name` fixture `"123456789012345"`, whose digits
`6`–`9` and `0` are outside the alphabet, must fail with the "longer than 13
characters" kind). -/
def name_encode (s : String) : Except NameErr Nat :=
  if 13 < s.data.length then .error .tooLong
  else if ¬ s.data.all charValid then .error .notNormalized
  else .ok (nameIdxEncode (s.data.map charIdx))

/-- Drop the trailing run of `'.'` characters. -/
def trimDots (l : List Char) : List Char :=
  (l.reverse.dropWhile (fun c => c = '.')).reverse

/-- A string with its trailing `'.'` padding removed. -/
def rstripDots (s : String) : String := ⟨trimDots s.data⟩

/-- `decode`: unpack the 13 bit fields, map them through the alphabet and drop
the trailing `'.'` padding produced by zero bits. -/
def name_decode (v : Nat) : String :=
  ⟨trimDots ((nameIdxDecode v).map idxChar)⟩

/-- Fixed-width little-endian byte string of an unsigned integer (§4.3). -/
def natLEBytes : Nat → Nat → List Nat
  | 0, _ => []
  | w + 1, v => v % 256 :: natLEBytes w (v / 256)

/-- The canonical 8-byte wire form of a name value (§3: 64-bit unsigned
little-endian). -/
def nameBytes (v : Nat) : List Nat := natLEBytes 8 v

/-! ### Name codec lemmas -/

lemma packIdx_lt (l : List Nat) : ∀ f : Nat, (∀ x ∈ l, x < 32) →
    packIdx l f < 2 ^ (5 * f - 1) := by
  induction l with
  | nil => intro f _; simp [packIdx]
  | cons d rest ih =>
    intro f h
    have hd : d < 32 := h d (by simp)
    match f with
    | 0 => simp [packIdx]
    | 1 =>
      simp only [packIdx]
      calc d % 16 < 16 := Nat.mod_lt _ (by norm_num)
        _ = 2 ^ (5 * 1 - 1) := by norm_num
    | g + 2 =>
      have hr := ih (g + 1) (fun x hx => h x (List.mem_cons_of_mem _ hx))
      have he : 5 * (g + 1) - 1 = 5 * g + 4 := by omega
      rw [he] at hr
      have h2 : 5 * (g + 2) - 1 = 5 * g + 9 := by omega
      simp only [packIdx, h2]
      calc d * 2 ^ (5 * g + 4) + packIdx rest (g + 1)
          < d * 2 ^ (5 * g + 4) + 2 ^ (5 * g + 4) := by omega
        _ = (d + 1) * 2 ^ (5 * g + 4) := by ring
        _ ≤ 32 * 2 ^ (5 * g + 4) := Nat.mul_le_mul_right _ (by omega)
        _ = 2 ^ (5 * g + 9) := by
            rw [show (32 : Nat) = 2 ^ 5 by norm_num, ← pow_add,
              show 5 + (5 * g + 4) = 5 * g + 9 by omega]

lemma unpackIdx_zero : ∀ f : Nat, unpackIdx 0 f = List.replicate f 0
  | 0 => rfl
  | 1 => by simp [unpackIdx]
  | f + 2 => by
    simp [unpackIdx, unpackIdx_zero (f + 1), List.replicate_succ]

lemma unpackIdx_add_left : ∀ (f B R : Nat), 1 ≤ f →
    unpackIdx (2 ^ (5 * f - 1) * B + R) f = unpackIdx R f
  | 0, _, _, h => absurd h (by omega)
  | 1, B, R, _ => by
    simp only [unpackIdx]
    norm_num
    omega
  | f + 2, B, R, _ => by
    have h9 : 5 * (f + 2) - 1 = 5 * f + 9 := by omega
    simp only [unpackIdx, h9, List.cons.injEq]
    refine ⟨?_, ?_⟩
    · have hsplit : (2 : Nat) ^ (5 * f + 9) * B = 2 ^ (5 * f + 4) * (32 * B) := by
        rw [show 5 * f + 9 = 5 * f + 4 + 5 by omega, pow_add]; ring
      rw [hsplit, Nat.mul_add_div (by positivity), Nat.add_comm,
        Nat.add_mul_mod_self_left]
    · have hsplit : (2 : Nat) ^ (5 * f + 9) * B = 2 ^ (5 * (f + 1) - 1) * (2 ^ 5 * B) := by
        rw [show 5 * f + 9 = (5 * (f + 1) - 1) + 5 by omega, pow_add]; ring
      rw [hsplit, unpackIdx_add_left (f + 1) (2 ^ 5 * B) R (by omega)]

lemma unpack_pack (l : List Nat) : ∀ f : Nat, l.length ≤ f →
    (∀ x ∈ l, x < 32) → (l.length = f → l.getD (f - 1) 0 < 16) →
    unpackIdx (packIdx l f) f = l ++ List.replicate (f - l.length) 0 := by
  induction l with
  | nil =>
    intro f _ _ _
    simpa [packIdx] using unpackIdx_zero f
  | cons d rest ih =>
    intro f hlen hmem hlast
    have hd : d < 32 := hmem d (by simp)
    match f with
    | 0 => simp at hlen
    | 1 =>
      have hrest : rest = [] := by
        cases rest with
        | nil => rfl
        | cons a t => simp at hlen
      subst hrest
      have hd16 : d < 16 := by simpa using hlast (by simp)

      simp [packIdx, unpackIdx, Nat.mod_eq_of_lt hd16]
    | g + 2 =>
      have hmem' : ∀ x ∈ rest, x < 32 := fun x hx => hmem x (List.mem_cons_of_mem _ hx)
      have hlast' : rest.length = g + 1 → rest.getD (g + 1 - 1) 0 < 16 := by
        intro hrl
        have := hlast (by simp [hrl])
        simpa using this
      have hr := ih (g + 1) (by simpa using hlen) hmem' hlast'
      have hb := packIdx_lt rest (g + 1) hmem'
      have he : 5 * (g + 1) - 1 = 5 * g + 4 := by omega
      rw [he] at hb
      simp only [packIdx, unpackIdx, List.cons_append, List.cons.injEq]
      refine ⟨?_, ?_⟩
      · rw [Nat.mul_comm d, Nat.mul_add_div (by positivity), Nat.div_eq_of_lt hb]
        simpa using Nat.mod_eq_of_lt hd
      · have hshift : d * 2 ^ (5 * g + 4) + packIdx rest (g + 1) =
            2 ^ (5 * (g + 1) - 1) * d + packIdx rest (g + 1) := by
          rw [he]; ring
        rw [hshift, unpackIdx_add_left (g + 1) d _ (by omega), hr]
        simp [List.replicate, Nat.succ_sub_succ]

lemma pack_unpack : ∀ (f v : Nat), 1 ≤ f →
    packIdx (unpackIdx v f) f = v % 2 ^ (5 * f - 1)
  | 0, _, h => absurd h (by omega)
  | 1, v, _ => by simp [unpackIdx, packIdx, Nat.mod_mod_of_dvd]
  | f + 2, v, _ => by
    have h9 : 5 * (f + 2) - 1 = 5 * f + 9 := by omega
    have he : 5 * (f + 1) - 1 = 5 * f + 4 := by omega
    simp only [unpackIdx, packIdx, h9]
    rw [pack_unpack (f + 1) v (by omega), he,
      show (2 : Nat) ^ (5 * f + 9) = 2 ^ (5 * f + 4) * 2 ^ 5 by
        rw [← pow_add],
      Nat.mod_mul]
    ring_nf

lemma charValid_mem {c : Char} (h : charValid c = true) : c ∈ nameAlphabet := by
  simpa [charValid, List.contains] using h

lemma charIdx_lt {c : Char} (h : charValid c = true) : charIdx c < 32 := by
  have h1 := List.indexOf_lt_length.mpr (charValid_mem h)
  have h2 : nameAlphabet.length = 32 := rfl
  rw [h2] at h1
  exact h1

lemma idxChar_charIdx {c : Char} (h : charValid c = true) : idxChar (charIdx c) = c := by
  have h1 := List.indexOf_lt_length.mpr (charValid_mem h)
  rw [idxChar, charIdx, List.getD_eq_getElem _ _ h1, List.getElem_indexOf]

lemma charIdx_idxChar {d : Nat} (hd : d < 32) : charIdx (idxChar d) = d := by
  interval_cases d <;> rfl

lemma idxChar_valid {d : Nat} (hd : d < 32) : charValid (idxChar d) = true := by
  interval_cases d <;> rfl

lemma dropWhile_replicate_append {α : Type} (p : α → Bool) (c : α) (hp : p c = true)
    (k : Nat) (t : List α) :
    List.dropWhile p (List.replicate k c ++ t) = List.dropWhile p t := by
  induction k with
  | zero => simp
  | succ n ih => simp [List.replicate_succ, List.dropWhile_cons, hp, ih]

lemma trimDots_append_dots (l : List Char) (k : Nat) :
    trimDots (l ++ List.replicate k '.') = trimDots l := by
  rw [trimDots, trimDots, List.reverse_append, List.reverse_replicate,
    dropWhile_replicate_append _ '.' (by simp) k l.reverse]

lemma name_decode_encode (s : String) (hv : s.data.all charValid = true)
    (hl : s.data.length ≤ 13)
    (h13 : s.data.length = 13 → charIdx (s.data.getD 12 '.') < 16) :
    name_decode (nameIdxEncode (s.data.map charIdx)) = rstripDots s := by
  have hall : ∀ c ∈ s.data, charValid c = true := List.all_eq_true.mp hv
  have hmem : ∀ x ∈ s.data.map charIdx, x < 32 := by
    intro x hx
    obtain ⟨c, hc, rfl⟩ := List.mem_map.mp hx
    exact charIdx_lt (hall c hc)
  have hlast : (s.data.map charIdx).length = 13 →
      (s.data.map charIdx).getD 12 0 < 16 := by
    intro hlen
    rw [List.length_map] at hlen
    have h12 : 12 < s.data.length := by omega
    rw [List.getD_eq_getElem _ _ (by simpa using h12), List.getElem_map]
    have := h13 hlen
    rwa [List.getD_eq_getElem _ _ h12] at this
  rw [name_decode, nameIdxDecode, nameIdxEncode,
    unpack_pack _ 13 (by simpa using hl) hmem (by simpa using hlast),
    List.map_append, List.map_replicate]
  have hmap : (s.data.map charIdx).map idxChar = s.data := by
    rw [List.map_map]
    have : ∀ c ∈ s.data, (idxChar ∘ charIdx) c = id c := by
      intro c hc
      simp [Function.comp, idxChar_charIdx (hall c hc)]
    rw [List.map_congr_left this, List.map_id]
  rw [hmap, show idxChar 0 = '.' from rfl, trimDots_append_dots, rstripDots]

/-- C2 (amended): for every string of length at most 13 over the name
alphabet whose 13th character (when present) has a 5-bit alphabet index below
16, encoding succeeds and decoding the 64-bit encoding yields the string again
after trimming the trailing `'.'` padding.  (The index bound on the 13th
character is forced: that position stores only the low 4 bits of its index,
see `name_roundtrip_cex`.) -/
theorem name_roundtrip (s : String) (hv : s.data.all charValid = true)
    (hl : s.data.length ≤ 13)
    (h13 : s.data.length = 13 → charIdx (s.data.getD 12 '.') < 16) :
    ∃ v, name_encode s = Except.ok v ∧ name_decode v = rstripDots s := by
  refine ⟨nameIdxEncode (s.data.map charIdx), ?_, name_decode_encode s hv hl h13⟩
  rw [name_encode, if_neg (by omega), if_neg (by simp [hv])]

theorem name_roundtrip_witness :
    ∃ v, name_encode "eosio.token" = Except.ok v ∧
      name_decode v = rstripDots "eosio.token" :=
  name_roundtrip "eosio.token" (by decide) (by decide) (by decide)

/-- C2 (counterexample): `"aaaaaaaaaaaaz"` is a 13-character string over the
alphabet (so it is a valid name), but its 13th character `'z'` has index 31,
of which only the low 4 bits (15, i.e. `'j'`) survive the packing: decoding
its encoding yields `"aaaaaaaaaaaaj"`, not the original string (no trailing
`'.'` trimming is involved in either string). -/
theorem name_roundtrip_cex :
    Except.map name_decode (name_encode "aaaaaaaaaaaaz") =
      Except.ok "aaaaaaaaaaaaj" ∧
    rstripDots "aaaaaaaaaaaaz" = "aaaaaaaaaaaaz" ∧
    ("aaaaaaaaaaaaj" : String) ≠ "aaaaaaaaaaaaz" := by
  refine ⟨by decide, by decide, by decide⟩

/-- C5: encoding `"eosio"` yields the 64-bit accumulator `0x5530EA0000000000`,
whose canonical 8-byte wire form (64-bit unsigned little-endian, §3) has hex
rendering `"0000000000ea3055"` — exactly the byte string asserted by
`test_name` (`bytes(name).hex()`). -/
theorem name_encode_eosio :
    Except.map (fun v => (v, bytesToHex (nameBytes v))) (name_encode "eosio") =
      Except.ok (6138663577826885632, "0000000000ea3055") := by decide

/-- C6: name validation. `"2345;[h"` fails with the "not normalized" kind
(`';'` and `'['` are outside the 32-symbol alphabet); every string longer than
13 characters fails with the "longer than 13 characters" kind; and encoding
succeeds exactly for the normalized strings (all characters in the alphabet)
of length at most 13. -/
theorem name_encode_validation :
    name_encode "2345;[h" = Except.error NameErr.notNormalized ∧
    (∀ s : String, 13 < s.data.length → name_encode s = Except.error NameErr.tooLong) ∧
    (∀ s : String, (∃ v, name_encode s = Except.ok v) ↔
      (s.data.all charValid = true ∧ s.length ≤ 13)) := by
  refine ⟨by decide, ?_, ?_⟩
  · intro s h
    rw [name_encode, if_pos h]
  · intro s
    have hlen : s.length = s.data.length := rfl
    rw [name_encode]
    by_cases h1 : 13 < s.data.length
    · rw [if_pos h1]
      constructor
      · intro ⟨v, hv⟩; exact absurd hv (by simp)
      · intro hx; omega
    · rw [if_neg h1]
      by_cases h2 : s.data.all charValid = true
      · rw [if_neg (by simp [h2])]
        exact ⟨fun _ => ⟨h2, by omega⟩, fun _ => ⟨_, rfl⟩⟩
      · rw [if_pos (by simp [h2])]
        constructor
        · intro ⟨v, hv⟩; exact absurd hv (by simp)
        · intro hx; exact absurd hx.1 h2

theorem name_encode_validation_witness :
    name_encode "123456789012345" = Except.error NameErr.tooLong ∧
    (∃ v, name_encode "useraaaaaaaa" = Except.ok v) :=
  ⟨name_encode_validation.2.1 "123456789012345" (by decide),
   (name_encode_validation.2.2 "useraaaaaaaa").mpr (by decide)⟩

/-! ## Primitive binary codec (§4.3)

Modelled from the spec: fixed-width little-endian unsigned integers, unsigned
LEB128 varints (7 data bits per byte, continuation bit in the high bit), and
varint-length-prefixed vectors / byte strings. -/

/-- Decode a fixed-width little-endian unsigned integer, returning the value
and the unconsumed tail; fails on truncated input. -/
def leDecode : Nat → List Nat → Option (Nat × List Nat)
  | 0, bs => some (0, bs)
  | _ + 1, [] => none
  | w + 1, b :: bs => (leDecode w bs).map fun p => (p.1 * 256 + b, p.2)

/-- Unsigned LEB128 encoding, written with a fuel argument (the recursion
divides by 128, so any fuel at least the value itself suffices) to keep the
definition structurally recursive. -/
def varintEncodeF : Nat → Nat → List Nat
  | 0, n => [n % 128]
  | f + 1, n => if n < 128 then [n] else (n % 128 + 128) :: varintEncodeF f (n / 128)

/-- Unsigned LEB128 encoding. -/
def varintEncode (n : Nat) : List Nat := varintEncodeF n n

/-- Unsigned LEB128 decoding, returning the value and the unconsumed tail. -/
def varintDecode : List Nat → Option (Nat × List Nat)
  | [] => none
  | b :: rest =>
    if b < 128 then some (b, rest)
    else (varintDecode rest).map fun p => (p.1 * 128 + (b - 128), p.2)

lemma leDecode_natLEBytes : ∀ (w v : Nat), v < 2 ^ (8 * w) → ∀ t : List Nat,
    leDecode w (natLEBytes w v ++ t) = some (v, t) := by
  intro w
  induction w with
  | zero =>
    intro v hv t
    interval_cases v
    simp [natLEBytes, leDecode]
  | succ w ih =>
    intro v hv t
    have hdiv : v / 256 < 2 ^ (8 * w) := by
      rw [Nat.div_lt_iff_lt_mul (by norm_num)]
      calc v < 2 ^ (8 * (w + 1)) := hv
        _ = 2 ^ (8 * w) * 256 := by
          rw [show 8 * (w + 1) = 8 * w + 8 by omega, pow_add]; norm_num
    have hshape : natLEBytes (w + 1) v ++ t = v % 256 :: (natLEBytes w (v / 256) ++ t) := by
      simp [natLEBytes]
    rw [hshape, leDecode, ih (v / 256) hdiv t]
    simp only [Option.map_some', Option.some.injEq, Prod.mk.injEq]
    exact ⟨by omega, trivial⟩

lemma varintDecode_encodeF : ∀ (f n : Nat), n ≤ f → ∀ t : List Nat,
    varintDecode (varintEncodeF f n ++ t) = some (n, t) := by
  intro f
  induction f with
  | zero =>
    intro n hn t
    interval_cases n
    simp [varintEncodeF, varintDecode]
  | succ f ih =>
    intro n hn t
    rw [varintEncodeF]
    split
    · next h => simp [varintDecode, h]
    · next h =>
      have hrec : n / 128 ≤ f := by
        have := Nat.div_lt_self (show 0 < n by omega) (show 1 < 128 by omega)
        omega
      rw [List.cons_append, varintDecode, if_neg (by omega), ih (n / 128) hrec t]
      simp only [Option.map_some', Option.some.injEq, Prod.mk.injEq]
      exact ⟨by omega, trivial⟩

lemma varintDecode_encode (n : Nat) : ∀ t : List Nat,
    varintDecode (varintEncode n ++ t) = some (n, t) :=
  varintDecode_encodeF n n le_rfl

/-! ## Decimal and asset rendering (§4.5)

Modelled from the spec: an `asset` quantity is decoded as a signed 64-bit
magnitude plus a trailing symbol code + precision, rendered as
`"<fixed-point amount> <symbol>"` (e.g. `"0.0001 SYS"`); the ABI encoder parses
that text back into the binary form. -/

/-- The ten decimal digit characters. -/
def digitChars : List Char := "0123456789".data

/-- Character of a decimal digit. -/
def digitCh (d : Nat) : Char := digitChars.getD d '0'

/-- Value of a decimal digit character (10 if not a digit). -/
def chDigit (c : Char) : Nat := digitChars.indexOf c

/-- Little-endian base-`b` digits of a positive number, written with a fuel
argument (any fuel at least the number itself suffices) to keep the
definition structurally recursive; agrees with `Nat.digits`
(`digitsRevB_eq_digits`). -/
def digitsRevB (b : Nat) : Nat → Nat → List Nat
  | _, 0 => []
  | 0, _ + 1 => []
  | f + 1, n + 1 => (n + 1) % b :: digitsRevB b f ((n + 1) / b)

/-- Decimal rendering of a natural number, most significant digit first. -/
def renderNat (n : Nat) : List Char :=
  if n = 0 then ['0'] else (digitsRevB 10 n n).reverse.map digitCh

lemma digitsRevB_eq_digits (b : Nat) (hb : 2 ≤ b) :
    ∀ f n, n ≤ f → digitsRevB b f n = Nat.digits b n := by
  intro f
  induction f with
  | zero =>
    intro n hn
    interval_cases n
    simp [digitsRevB]
  | succ f ih =>
    intro n hn
    match n with
    | 0 => simp [digitsRevB]
    | m + 1 =>
      rw [show digitsRevB b (f + 1) (m + 1) =
          (m + 1) % b :: digitsRevB b f ((m + 1) / b) from rfl,
        Nat.digits_def' (show 1 < b by omega) (Nat.succ_pos m),
        ih ((m + 1) / b) (by
          have h2 : (m + 1) / b < m + 1 := Nat.div_lt_self (by omega) (by omega)
          omega)]

lemma renderNat_eq (n : Nat) :
    renderNat n = if n = 0 then ['0'] else (Nat.digits 10 n).reverse.map digitCh := by
  rw [renderNat, digitsRevB_eq_digits 10 (by norm_num) n n le_rfl]

/-- Value of a decimal digit string (0 for the empty string). -/
def parseNat (l : List Char) : Nat :=
  Nat.ofDigits 10 (l.map chDigit).reverse

/-- All characters are decimal digits. -/
def isDigits (l : List Char) : Bool := l.all (fun c => chDigit c < 10)

/-- Fixed-point rendering of an asset: magnitude scaled down by
`10 ^ precision` with exactly `precision` fractional digits (no decimal point
when the precision is zero), one space, then the symbol characters. -/
def assetRender (a : Int) (p : Nat) (sym : List Char) : List Char :=
  let n := a.natAbs
  let fp := renderNat (n % 10 ^ p)
  (if a < 0 then ['-'] else []) ++ renderNat (n / 10 ^ p) ++
    (if p = 0 then [] else '.' :: (List.replicate (p - fp.length) '0' ++ fp)) ++
    ' ' :: sym

/-- Strip one optional leading minus sign. -/
def splitSign : List Char → Bool × List Char
  | '-' :: d => (true, d)
  | d => (false, d)

/-- Parse `[-]<digits>[.<digits>] <symbol>` back into the signed amount, the
precision (the number of fractional digits) and the symbol characters. -/
def assetParse (l : List Char) : Option (Int × Nat × List Char) :=
  let amt := l.takeWhile (fun c => c ≠ ' ')
  match l.dropWhile (fun c => c ≠ ' ') with
  | ' ' :: sym =>
    let (neg, digs) := splitSign amt
    let ip := digs.takeWhile (fun c => c ≠ '.')
    let sgn : Int := if neg then -1 else 1
    match digs.dropWhile (fun c => c ≠ '.') with
    | [] =>
      if isDigits ip ∧ ip ≠ [] then some (sgn * parseNat ip, 0, sym) else none
    | '.' :: fd =>
      if isDigits ip ∧ ip ≠ [] ∧ isDigits fd ∧ fd ≠ [] then
        some (sgn * (parseNat ip * 10 ^ fd.length + parseNat fd), fd.length, sym)
      else none
    | _ => none
  | _ => none

/-! ### Decimal round-trip lemmas -/

lemma chDigit_digitCh {d : Nat} (hd : d < 10) : chDigit (digitCh d) = d := by
  interval_cases d <;> rfl

lemma renderNat_mem_digitChars (n : Nat) : ∀ c ∈ renderNat n, c ∈ digitChars := by
  intro c hc
  rw [renderNat_eq] at hc
  split at hc
  · simp at hc
    subst hc
    decide
  · obtain ⟨d, hd, rfl⟩ := List.mem_map.mp hc
    have hd10 : d < 10 := Nat.digits_lt_base (by norm_num) (List.mem_reverse.mp hd)
    have hlen : d < digitChars.length := by simpa using hd10
    rw [digitCh, List.getD_eq_getElem _ _ hlen]
    exact List.getElem_mem hlen

lemma digitChars_props : ∀ c ∈ digitChars,
    chDigit c < 10 ∧ c ≠ ' ' ∧ c ≠ '.' ∧ c ≠ '-' := by decide

lemma renderNat_ne_nil (n : Nat) : renderNat n ≠ [] := by
  rw [renderNat_eq]
  split
  · simp
  · next h =>
    simp [Nat.digits_ne_nil_iff_ne_zero.mpr h]

lemma ofDigits_replicate_zero (b : Nat) : ∀ k, Nat.ofDigits b (List.replicate k 0) = 0
  | 0 => rfl
  | k + 1 => by
    rw [List.replicate_succ, Nat.ofDigits_cons, ofDigits_replicate_zero b k]
    simp

lemma parseNat_renderNat (n : Nat) : parseNat (renderNat n) = n := by
  rw [renderNat_eq]
  split
  · next h => subst h; rfl
  · next h =>
    rw [parseNat, List.map_map]
    have hcongr : ∀ d ∈ (Nat.digits 10 n).reverse, (chDigit ∘ digitCh) d = id d := by
      intro d hd
      have hd10 : d < 10 := Nat.digits_lt_base (by norm_num) (List.mem_reverse.mp hd)
      simp [Function.comp, chDigit_digitCh hd10]
    rw [List.map_congr_left hcongr, List.map_id, List.reverse_reverse,
      Nat.ofDigits_digits]

lemma parseNat_pad_renderNat (k n : Nat) :
    parseNat (List.replicate k '0' ++ renderNat n) = n := by
  rw [parseNat, List.map_append, List.map_replicate, List.reverse_append,
    List.reverse_replicate, Nat.ofDigits_append]
  have h0 : chDigit '0' = 0 := rfl
  rw [h0, ofDigits_replicate_zero]
  have := parseNat_renderNat n
  rw [parseNat] at this
  rw [this]
  ring

lemma renderNat_length_le {n p : Nat} (hn : n < 10 ^ p) (hp : 1 ≤ p) :
    (renderNat n).length ≤ p := by
  rw [renderNat_eq]
  split
  · simpa using hp
  · next h =>
    have hlen := Nat.digits_len 10 n (by norm_num) h
    have hlog := Nat.log_lt_of_lt_pow h hn
    simp only [List.length_map, List.length_reverse]
    omega

lemma takeWhile_append_all {α : Type} (p : α → Bool) (xs ys : List α)
    (h : ∀ x ∈ xs, p x = true) :
    (xs ++ ys).takeWhile p = xs ++ ys.takeWhile p := by
  induction xs with
  | nil => simp
  | cons a t ih =>
    simp only [List.cons_append, List.takeWhile_cons, h a (by simp),
      if_true]
    rw [ih (fun x hx => h x (List.mem_cons_of_mem _ hx))]

lemma dropWhile_append_all {α : Type} (p : α → Bool) (xs ys : List α)
    (h : ∀ x ∈ xs, p x = true) :
    (xs ++ ys).dropWhile p = ys.dropWhile p := by
  induction xs with
  | nil => simp
  | cons a t ih =>
    simp only [List.cons_append, List.dropWhile_cons, h a (by simp), if_true]
    exact ih (fun x hx => h x (List.mem_cons_of_mem _ hx))

lemma splitSign_neg (l : List Char) : splitSign ('-' :: l) = (true, l) := rfl

lemma splitSign_cons {c : Char} (h : c ≠ '-') (l : List Char) :
    splitSign (c :: l) = (false, c :: l) := by
  rw [splitSign.eq_def]
  split
  · next d heq =>
    rw [List.cons.injEq] at heq
    exact absurd heq.1 h
  · rfl

lemma assetParse_assetRender (a : Int) (p : Nat) (sym : List Char) :
    assetParse (assetRender a p sym) = some (a, p, sym) := by
  set n := a.natAbs with hn
  set ipr := renderNat (n / 10 ^ p) with hipr
  set fpr := renderNat (n % 10 ^ p) with hfpr
  set pad := List.replicate (p - fpr.length) '0' with hpad
  set sgn : List Char := if a < 0 then ['-'] else [] with hsgn
  set frac : List Char := if p = 0 then [] else '.' :: (pad ++ fpr) with hfrac
  have hdig_ip : ∀ c ∈ ipr, c ∈ digitChars := renderNat_mem_digitChars _
  have hdig_fp : ∀ c ∈ fpr, c ∈ digitChars := renderNat_mem_digitChars _
  have hshape : assetRender a p sym = (sgn ++ (ipr ++ frac)) ++ ' ' :: sym := by
    rw [assetRender]
    simp only [← hn, ← hipr, ← hfpr, ← hpad, ← hsgn, ← hfrac, List.append_assoc]
  have hfrac_mem : ∀ c ∈ frac, c = '.' ∨ c = '0' ∨ c ∈ digitChars := by
    intro c hc
    rw [hfrac] at hc
    split at hc
    · simp at hc
    · rcases List.mem_cons.mp hc with h1 | h2
      · exact Or.inl h1
      · rcases List.mem_append.mp h2 with h3 | h4
        · exact Or.inr (Or.inl (List.eq_of_mem_replicate h3))
        · exact Or.inr (Or.inr (hdig_fp c h4))
  have hamt_nsp : ∀ c ∈ sgn ++ (ipr ++ frac), (fun c : Char => decide (c ≠ ' ')) c = true := by
    intro c hc
    apply decide_eq_true
    rcases List.mem_append.mp hc with h1 | h2
    · rw [hsgn] at h1
      split at h1 <;> simp_all
    · rcases List.mem_append.mp h2 with h3 | h4
      · exact (digitChars_props c (hdig_ip c h3)).2.1
      · rcases hfrac_mem c h4 with h | h | h
        · subst h; decide
        · subst h; decide
        · exact (digitChars_props c h).2.1
  have htake : (assetRender a p sym).takeWhile (fun c : Char => decide (c ≠ ' ')) =
      sgn ++ (ipr ++ frac) := by
    rw [hshape, takeWhile_append_all _ _ _ hamt_nsp, List.takeWhile_cons]
    norm_num
  have hdrop : (assetRender a p sym).dropWhile (fun c : Char => decide (c ≠ ' ')) =
      ' ' :: sym := by
    rw [hshape, dropWhile_append_all _ _ _ hamt_nsp, List.dropWhile_cons]
    norm_num
  have hip_ne : ipr ≠ [] := renderNat_ne_nil _
  have hip_ndot : ∀ c ∈ ipr, (fun c : Char => decide (c ≠ '.')) c = true := by
    intro c hc
    exact decide_eq_true (digitChars_props c (hdig_ip c hc)).2.2.1
  have hsplitSign : splitSign (sgn ++ (ipr ++ frac)) =
      (decide (a < 0), ipr ++ frac) := by
    rw [hsgn]
    by_cases ha : a < 0
    · rw [if_pos ha]
      simp only [List.cons_append, List.nil_append, splitSign_neg, decide_eq_true ha]
    · rw [if_neg ha]
      simp only [List.nil_append]
      obtain ⟨c, t, hct⟩ : ∃ c t, ipr = c :: t := by
        cases hx : ipr with
        | nil => exact absurd hx hip_ne
        | cons c t => exact ⟨c, t, rfl⟩
      have hcd : c ∈ digitChars := hdig_ip c (by rw [hct]; simp)
      rw [hct, List.cons_append, splitSign_cons (digitChars_props c hcd).2.2.2]
      simp [decide_eq_false ha]
  have hisdig_ip : isDigits ipr = true := by
    rw [isDigits, List.all_eq_true]
    intro c hc
    exact decide_eq_true (digitChars_props c (hdig_ip c hc)).1
  rw [assetParse]
  simp only [htake, hdrop, hsplitSign]
  by_cases hp : p = 0
  · subst hp
    rw [hfrac]
    simp only [reduceIte, List.append_nil,
      List.takeWhile_eq_self_iff.mpr hip_ndot,
      List.dropWhile_eq_nil_iff.mpr hip_ndot]
    rw [if_pos ⟨hisdig_ip, hip_ne⟩]
    simp only [Option.some.injEq, Prod.mk.injEq, decide_eq_true_eq]
    refine ⟨?_, trivial⟩
    rw [hipr, pow_zero, Nat.div_one, parseNat_renderNat]
    split
    · next ha => omega
    · next ha => omega
  · have hfrac_eq : frac = '.' :: (pad ++ fpr) := by rw [hfrac, if_neg hp]
    rw [hfrac_eq]
    rw [show ipr ++ '.' :: (pad ++ fpr) = ipr ++ ('.' :: (pad ++ fpr)) from rfl,
      takeWhile_append_all _ _ _ hip_ndot,
      dropWhile_append_all _ _ _ hip_ndot,
      List.takeWhile_cons, List.dropWhile_cons]
    norm_num
    have hfd_dig : isDigits (pad ++ fpr) = true := by
      rw [isDigits, List.all_eq_true]
      intro c hc
      apply decide_eq_true
      rcases List.mem_append.mp hc with h1 | h2
      · rw [List.eq_of_mem_replicate h1]; decide
      · exact (digitChars_props c (hdig_fp c h2)).1
    have hlt : n % 10 ^ p < 10 ^ p := Nat.mod_lt _ (by positivity)
    have hfpr_le : fpr.length ≤ p := by
      rw [hfpr]
      exact renderNat_length_le hlt (by omega)
    have hfd_len : pad.length + fpr.length = p := by
      rw [hpad, List.length_replicate]
      omega
    have hparse_fd : parseNat (pad ++ fpr) = n % 10 ^ p := by
      rw [hpad, hfpr, parseNat_pad_renderNat]
    have hdm : n / 10 ^ p * 10 ^ p + n % 10 ^ p = n := by
      rw [Nat.mul_comm, Nat.div_add_mod]
    have hInt : ((n / 10 ^ p : Nat) : Int) * (10 : Int) ^ p + ((n % 10 ^ p : Nat) : Int)
        = (n : Int) := by exact_mod_cast hdm
    refine ⟨⟨hisdig_ip, hip_ne, hfd_dig, fun _ => by rw [hfpr]; exact renderNat_ne_nil _⟩,
      ?_, hfd_len⟩
    rw [hparse_fd, hfd_len, hipr, parseNat_renderNat]
    split
    · next ha =>
      have hna : (n : Int) = -a := by omega
      linarith [hInt, hna]
    · next ha =>
      have hna : (n : Int) = a := by omega
      linarith [hInt, hna]

/-! ### Decoding a name value and re-encoding it is the identity -/

/-- Drop the trailing run of zero indices. -/
def trimZeros (l : List Nat) : List Nat :=
  (l.reverse.dropWhile (fun d => d = 0)).reverse

lemma unpackIdx_mem_lt (v : Nat) : ∀ f, ∀ x ∈ unpackIdx v f, x < 32
  | 0 => by simp [unpackIdx]
  | 1 => by
    simp only [unpackIdx, List.mem_singleton]
    rintro x rfl
    omega
  | f + 2 => by
    simp only [unpackIdx, List.mem_cons]
    rintro x (rfl | hx)
    · omega
    · exact unpackIdx_mem_lt v (f + 1) x hx

lemma unpackIdx_length (v : Nat) : ∀ f, (unpackIdx v f).length = f
  | 0 => rfl
  | 1 => rfl
  | f + 2 => by
    simp only [unpackIdx, List.length_cons, unpackIdx_length v (f + 1)]

lemma packIdx_replicate_zero : ∀ (k f : Nat), packIdx (List.replicate k 0) f = 0
  | 0, _ => by simp [packIdx]
  | k + 1, 0 => by simp [List.replicate_succ, packIdx]
  | k + 1, 1 => by simp [List.replicate_succ, packIdx]
  | k + 1, f + 2 => by
    simp [List.replicate_succ, packIdx, packIdx_replicate_zero k (f + 1)]

lemma packIdx_append_zeros : ∀ (l : List Nat) (k f : Nat),
    packIdx (l ++ List.replicate k 0) f = packIdx l f
  | [], k, f => by simpa [packIdx] using packIdx_replicate_zero k f
  | d :: rest, k, 0 => by simp [packIdx]
  | d :: rest, k, 1 => by simp [packIdx]
  | d :: rest, k, f + 2 => by
    simp [packIdx, packIdx_append_zeros rest k (f + 1)]

lemma trimZeros_decomp (l : List Nat) :
    l = trimZeros l ++ List.replicate (l.length - (trimZeros l).length) 0 := by
  have hsplit := List.takeWhile_append_dropWhile (fun d => decide (d = 0)) l.reverse
  have htk : l.reverse.takeWhile (fun d => decide (d = 0)) =
      List.replicate (l.reverse.takeWhile (fun d => decide (d = 0))).length 0 := by
    apply List.eq_replicate_of_mem
    intro b hb
    have hpb := @List.mem_takeWhile_imp Nat (fun d => decide (d = 0)) l.reverse b hb
    exact of_decide_eq_true hpb
  have hlen : l.length - (trimZeros l).length =
      (l.reverse.takeWhile (fun d => decide (d = 0))).length := by
    have h1 : (l.reverse.takeWhile (fun d => decide (d = 0))).length +
        (l.reverse.dropWhile (fun d => decide (d = 0))).length = l.length := by
      rw [← List.length_append, hsplit, List.length_reverse]
    have h2 : (trimZeros l).length =
        (l.reverse.dropWhile (fun d => decide (d = 0))).length := by
      rw [trimZeros, List.length_reverse]
    omega
  rw [hlen]
  calc l = l.reverse.reverse := (List.reverse_reverse l).symm
    _ = (l.reverse.takeWhile (fun d => decide (d = 0)) ++
          l.reverse.dropWhile (fun d => decide (d = 0))).reverse := by rw [hsplit]
    _ = trimZeros l ++ (l.reverse.takeWhile (fun d => decide (d = 0))).reverse := by
          rw [List.reverse_append, trimZeros]
    _ = _ := by rw [htk, List.reverse_replicate, List.length_replicate]

lemma trimZeros_sublist (l : List Nat) : ∀ x ∈ trimZeros l, x ∈ l := by
  intro x hx
  rw [trimZeros, List.mem_reverse] at hx
  exact List.mem_reverse.mp ((List.dropWhile_sublist _).mem hx)

lemma trimZeros_length_le (l : List Nat) : (trimZeros l).length ≤ l.length := by
  rw [trimZeros, List.length_reverse]
  calc (l.reverse.dropWhile (fun d => decide (d = 0))).length
      ≤ l.reverse.length := (List.dropWhile_sublist _).length_le
    _ = l.length := List.length_reverse l

lemma dropWhile_dot_map (m : List Nat) (h : ∀ d ∈ m, d < 32) :
    List.dropWhile (fun c => decide (c = '.')) (m.map idxChar) =
    (List.dropWhile (fun d => decide (d = 0)) m).map idxChar := by
  induction m with
  | nil => simp
  | cons d rest ih =>
    have hd32 : d < 32 := h d (by simp)
    have hdot : (decide (idxChar d = '.')) = decide (d = 0) := by
      interval_cases d <;> rfl
    simp only [List.map_cons, List.dropWhile_cons, hdot]
    by_cases hz : d = 0
    · simp only [decide_eq_true hz, if_true, reduceIte]
      exact ih (fun x hx => h x (List.mem_cons_of_mem _ hx))
    · simp [decide_eq_false hz]

lemma trimDots_map_idxChar (l : List Nat) (h : ∀ d ∈ l, d < 32) :
    trimDots (l.map idxChar) = (trimZeros l).map idxChar := by
  rw [trimDots, trimZeros, ← List.map_reverse,
    dropWhile_dot_map l.reverse (fun d hd => h d (List.mem_reverse.mp hd)),
    ← List.map_reverse]

/-- A 64-bit name value decoded to text and encoded again yields the same
value: the trailing-dot trimming only removes zero fields. -/
lemma name_encode_decode {v : Nat} (hv : v < 2 ^ 64) :
    name_encode (name_decode v) = Except.ok v := by
  set digs := unpackIdx v 13 with hdigs
  have hd32 : ∀ d ∈ digs, d < 32 := unpackIdx_mem_lt v 13
  have hdlen : digs.length = 13 := unpackIdx_length v 13
  have hdec : name_decode v = ⟨(trimZeros digs).map idxChar⟩ := by
    rw [name_decode, nameIdxDecode, ← hdigs, trimDots_map_idxChar digs hd32]
  have htz32 : ∀ d ∈ trimZeros digs, d < 32 :=
    fun d hd => hd32 d (trimZeros_sublist digs d hd)
  rw [hdec, name_encode]
  have hdata : (⟨(trimZeros digs).map idxChar⟩ : String).data =
      (trimZeros digs).map idxChar := rfl
  rw [if_neg (by
    rw [hdata, List.length_map]
    have := trimZeros_length_le digs
    omega)]
  rw [if_neg (by
    rw [hdata]
    simp only [List.all_eq_true, not_not]
    intro c hc
    obtain ⟨d, hd, rfl⟩ := List.mem_map.mp hc
    exact idxChar_valid (htz32 d hd))]
  rw [hdata, List.map_map]
  have hback : ∀ d ∈ trimZeros digs, (charIdx ∘ idxChar) d = id d := by
    intro d hd
    simp [Function.comp, charIdx_idxChar (htz32 d hd)]
  rw [List.map_congr_left hback, List.map_id, nameIdxEncode]
  have hpack : packIdx (trimZeros digs) 13 = packIdx digs 13 := by
    conv_rhs => rw [trimZeros_decomp digs]
    rw [packIdx_append_zeros]
  rw [hpack, hdigs, pack_unpack 13 v (by omega)]
  congr 1
  norm_num
  omega

/-! ## ABI-driven decoding of the eosio.token transfer struct

Modelled from the spec (§3/§4.5): the ABI decoder walks the struct's declared
field list over a flat byte cursor; a `name` field decodes via §4.1, an
`asset` as a signed 64-bit magnitude plus a precision byte and a 7-byte symbol
code (rendered `"<fixed-point amount> <symbol>"`), a `string` as a varint
length followed by that many bytes.  The encoder is the structural inverse.
The `eosio.token` `transfer` struct has the ordered fields
`{from: name, to: name, quantity: asset, memo: string}` (test_action fixture).
String data is modelled at the byte level as ASCII characters. -/

/-- Signed 64-bit value stored as an unsigned little-endian integer. -/
def intFromLE (n : Nat) : Int :=
  if n < 2 ^ 63 then (n : Int) else (n : Int) - 2 ^ 64

/-- The ABI field types used by the `transfer` struct. -/
inductive FieldType where
  | nameT : FieldType
  | assetT : FieldType
  | stringT : FieldType
deriving DecidableEq

/-- Decode one field, returning its rendered text value and the unconsumed
tail; fails on truncated data (§4.5/§7 `AbiDecodeError`). -/
def decodeField : FieldType → List Nat → Option (String × List Nat)
  | .nameT, bs =>
    (leDecode 8 bs).map fun p => (name_decode p.1, p.2)
  | .assetT, bs =>
    (leDecode 8 bs).bind fun p =>
      match p.2 with
      | prec :: rest =>
        if 7 ≤ rest.length then
          some (⟨assetRender (intFromLE p.1) prec
              (((rest.take 7).takeWhile (fun b => b ≠ 0)).map Char.ofNat)⟩,
            rest.drop 7)
        else none
      | [] => none
  | .stringT, bs =>
    (varintDecode bs).bind fun p =>
      if p.1 ≤ p.2.length then
        some (⟨(p.2.take p.1).map Char.ofNat⟩, p.2.drop p.1)
      else none

/-- Encode one field from its rendered text value; fails on an invalid name,
malformed asset text, out-of-range magnitude/precision/symbol, or non-ASCII
string data (§4.5/§7 `AbiEncodeError`). -/
def encodeField : FieldType → String → Option (List Nat)
  | .nameT, s => (name_encode s).toOption.map (natLEBytes 8)
  | .assetT, s =>
    (assetParse s.data).bind fun v =>
      if -2 ^ 63 ≤ v.1 ∧ v.1 < 2 ^ 63 ∧ v.2.1 < 256 ∧ 1 ≤ v.2.2.length ∧
          v.2.2.length ≤ 7 ∧ v.2.2.all (fun c => 65 ≤ c.toNat ∧ c.toNat ≤ 90) then
        some (natLEBytes 8 (v.1 % 2 ^ 64).toNat ++
          v.2.1 :: (v.2.2.map Char.toNat ++ List.replicate (7 - v.2.2.length) 0))
      else none
  | .stringT, s =>
    if s.data.all (fun c => c.toNat < 128) then
      some (varintEncode s.data.length ++ s.data.map Char.toNat)
    else none

/-- The `transfer` struct of the `eosio.token` ABI. -/
def transferFields : List (String × FieldType) :=
  [("from", .nameT), ("to", .nameT), ("quantity", .assetT), ("memo", .stringT)]

/-- Decode a struct field by field in declared order (§4.5). -/
def decodeStruct : List (String × FieldType) → List Nat →
    Option (List (String × String) × List Nat)
  | [], bs => some ([], bs)
  | (nm, ft) :: fs, bs =>
    (decodeField ft bs).bind fun p =>
      (decodeStruct fs p.2).map fun q => ((nm, p.1) :: q.1, q.2)

/-- Encode a struct from a field mapping, field by field in declared order;
fails on a missing required field (§4.5 `AbiEncodeError`). -/
def encodeStruct : List (String × FieldType) → List (String × String) →
    Option (List Nat)
  | [], _ => some []
  | (nm, ft) :: fs, m =>
    (List.lookup nm m).bind fun v =>
      (encodeField ft v).bind fun bs =>
        (encodeStruct fs m).map fun rest => bs ++ rest

/-- `Action.decode_data` for a transfer payload: the cursor must consume the
payload exactly. -/
def transfer_decode_data (bs : List Nat) : Option (List (String × String)) :=
  match decodeStruct transferFields bs with
  | some (m, []) => some m
  | _ => none

/-- The binary form of a transfer payload built from raw field values. -/
def transferPayload (v1 v2 : Nat) (a : Int) (p : Nat) (sym memo : List Char) :
    List Nat :=
  natLEBytes 8 v1 ++ natLEBytes 8 v2 ++
    (natLEBytes 8 (a % 2 ^ 64).toNat ++
      p :: (sym.map Char.toNat ++ List.replicate (7 - sym.length) 0)) ++
    (varintEncode memo.length ++ memo.map Char.toNat)

/-- The rendered field mapping of a transfer payload. -/
def transferMapping (v1 v2 : Nat) (a : Int) (p : Nat) (sym memo : List Char) :
    List (String × String) :=
  [("from", name_decode v1), ("to", name_decode v2),
   ("quantity", ⟨assetRender a p sym⟩), ("memo", ⟨memo⟩)]

/-! ### Field-level round trips -/

lemma takeWhile_replicate_zero (k : Nat) :
    (List.replicate k 0).takeWhile (fun b : Nat => decide (b ≠ 0)) = [] := by
  cases k
  · rfl
  · simp [List.replicate_succ, List.takeWhile_cons]

lemma map_ofNat_toNat (l : List Char) : (l.map Char.toNat).map Char.ofNat = l := by
  rw [List.map_map]
  have h : ∀ c ∈ l, (Char.ofNat ∘ Char.toNat) c = id c := by
    intro c _
    simp [Function.comp, Char.ofNat_toNat]
  rw [List.map_congr_left h, List.map_id]

lemma decodeField_name (v : Nat) (hv : v < 2 ^ 64) (t : List Nat) :
    decodeField .nameT (natLEBytes 8 v ++ t) = some (name_decode v, t) := by
  rw [decodeField, leDecode_natLEBytes 8 v (by norm_num at hv ⊢; omega) t]
  rfl

lemma encodeField_name (v : Nat) (hv : v < 2 ^ 64) :
    encodeField .nameT (name_decode v) = some (natLEBytes 8 v) := by
  rw [encodeField, name_encode_decode hv]
  rfl

lemma decodeField_asset (a : Int) (ha1 : -2 ^ 63 ≤ a) (ha2 : a < 2 ^ 63)
    (p : Nat) (sym : List Char) (hs7 : sym.length ≤ 7)
    (hsc : ∀ c ∈ sym, 65 ≤ c.toNat ∧ c.toNat ≤ 90) (t : List Nat) :
    decodeField .assetT (natLEBytes 8 (a % 2 ^ 64).toNat ++
        ((p :: (sym.map Char.toNat ++ List.replicate (7 - sym.length) 0)) ++ t)) =
      some (⟨assetRender a p sym⟩, t) := by
  have hnat : (a % 2 ^ 64).toNat < 2 ^ 64 := by omega
  have hb : (sym.map Char.toNat ++ List.replicate (7 - sym.length) 0).length = 7 := by
    simp only [List.length_append, List.length_map, List.length_replicate]
    omega
  rw [decodeField, leDecode_natLEBytes 8 _ (by norm_num at hnat ⊢; omega) _,
    Option.some_bind, List.cons_append]
  have htk : ((sym.map Char.toNat ++ List.replicate (7 - sym.length) 0) ++
      t).take 7 = sym.map Char.toNat ++ List.replicate (7 - sym.length) 0 :=
    List.take_left' hb
  have hdp : ((sym.map Char.toNat ++ List.replicate (7 - sym.length) 0) ++
      t).drop 7 = t :=
    List.drop_left' hb
  dsimp only
  rw [if_pos (by rw [List.length_append, hb]; omega), htk, hdp]
  have hsym0 : ∀ x ∈ sym.map Char.toNat, (fun b : Nat => decide (b ≠ 0)) x = true := by
    intro x hx
    obtain ⟨c, hc, rfl⟩ := List.mem_map.mp hx
    exact decide_eq_true (by have := hsc c hc; omega)
  rw [takeWhile_append_all _ _ _ hsym0, takeWhile_replicate_zero, List.append_nil,
    map_ofNat_toNat]
  have hint : intFromLE (a % 2 ^ 64).toNat = a := by
    rw [intFromLE]
    split <;> omega
  rw [hint]

lemma encodeField_asset (a : Int) (ha1 : -2 ^ 63 ≤ a) (ha2 : a < 2 ^ 63)
    (p : Nat) (hp : p < 256) (sym : List Char) (hs1 : 1 ≤ sym.length)
    (hs7 : sym.length ≤ 7) (hsc : ∀ c ∈ sym, 65 ≤ c.toNat ∧ c.toNat ≤ 90) :
    encodeField .assetT ⟨assetRender a p sym⟩ =
      some (natLEBytes 8 (a % 2 ^ 64).toNat ++
        p :: (sym.map Char.toNat ++ List.replicate (7 - sym.length) 0)) := by
  rw [encodeField, show (⟨assetRender a p sym⟩ : String).data = assetRender a p sym
      from rfl,
    assetParse_assetRender, Option.some_bind]
  rw [if_pos ⟨ha1, ha2, hp, hs1, hs7, List.all_eq_true.mpr
    (fun c hc => decide_eq_true (hsc c hc))⟩]

lemma decodeField_string (memo : List Char) (t : List Nat) :
    decodeField .stringT (varintEncode memo.length ++ (memo.map Char.toNat ++ t)) =
      some (⟨memo⟩, t) := by
  rw [decodeField, varintDecode_encode, Option.some_bind]
  have hlen : (memo.map Char.toNat).length = memo.length := List.length_map _ _
  rw [if_pos (by rw [List.length_append, hlen]; omega)]
  rw [List.take_left' hlen, List.drop_left' hlen, map_ofNat_toNat]

lemma encodeField_string (memo : List Char) (hm : ∀ c ∈ memo, c.toNat < 128) :
    encodeField .stringT ⟨memo⟩ =
      some (varintEncode memo.length ++ memo.map Char.toNat) := by
  rw [encodeField]
  rw [if_pos (List.all_eq_true.mpr (fun c hc => decide_eq_true (hm c hc)))]

/-- C4: for every payload encoding a transfer struct — raw name values below
`2^64`, a signed 64-bit magnitude, a precision byte, a 1–7 character
upper-case symbol code and ASCII memo bytes — `decode_data` over the
`eosio.token` ABI recovers exactly the rendered field mapping
`{from, to, quantity, memo}` (the quantity as a fixed-point amount plus
symbol, e.g. `"0.0001 SYS"`), and encoding that mapping back through the ABI
encoder yields the byte-identical payload. -/
theorem transfer_abi_roundtrip (v1 v2 : Nat) (h1 : v1 < 2 ^ 64) (h2 : v2 < 2 ^ 64)
    (a : Int) (ha1 : -2 ^ 63 ≤ a) (ha2 : a < 2 ^ 63) (p : Nat) (hp : p < 256)
    (sym : List Char) (hs1 : 1 ≤ sym.length) (hs7 : sym.length ≤ 7)
    (hsc : ∀ c ∈ sym, 65 ≤ c.toNat ∧ c.toNat ≤ 90)
    (memo : List Char) (hm : ∀ c ∈ memo, c.toNat < 128) :
    transfer_decode_data (transferPayload v1 v2 a p sym memo) =
      some (transferMapping v1 v2 a p sym memo) ∧
    encodeStruct transferFields (transferMapping v1 v2 a p sym memo) =
      some (transferPayload v1 v2 a p sym memo) := by
  constructor
  · have hshape : transferPayload v1 v2 a p sym memo =
        natLEBytes 8 v1 ++ (natLEBytes 8 v2 ++
          (natLEBytes 8 (a % 2 ^ 64).toNat ++
            ((p :: (sym.map Char.toNat ++ List.replicate (7 - sym.length) 0)) ++
              (varintEncode memo.length ++ (memo.map Char.toNat ++ []))))) := by
      simp [transferPayload, List.append_assoc]
    rw [transfer_decode_data, transferFields, hshape]
    simp only [decodeStruct,
      decodeField_name v1 h1, decodeField_name v2 h2, Option.some_bind,
      decodeField_asset a ha1 ha2 p sym hs7 hsc,
      decodeField_string memo, Option.map_some']
    rfl
  · have l1 : List.lookup "from" (transferMapping v1 v2 a p sym memo) =
        some (name_decode v1) := rfl
    have l2 : List.lookup "to" (transferMapping v1 v2 a p sym memo) =
        some (name_decode v2) := rfl
    have l3 : List.lookup "quantity" (transferMapping v1 v2 a p sym memo) =
        some ⟨assetRender a p sym⟩ := rfl
    have l4 : List.lookup "memo" (transferMapping v1 v2 a p sym memo) =
        some ⟨memo⟩ := rfl
    rw [transferFields]
    simp only [encodeStruct, l1, l2, l3, l4, Option.some_bind,
      encodeField_name v1 h1, encodeField_name v2 h2,
      encodeField_asset a ha1 ha2 p hp sym hs1 hs7 hsc,
      encodeField_string memo hm, Option.map_some']
    simp [transferPayload, List.append_assoc]

theorem transfer_abi_roundtrip_witness :
    transfer_decode_data (transferPayload 0xd6157318c6318c60 0xd6157318c6318c70
        1 4 ['S', 'Y', 'S'] "test memo".data) =
      some (transferMapping 0xd6157318c6318c60 0xd6157318c6318c70
        1 4 ['S', 'Y', 'S'] "test memo".data) ∧
    encodeStruct transferFields (transferMapping 0xd6157318c6318c60
        0xd6157318c6318c70 1 4 ['S', 'Y', 'S'] "test memo".data) =
      some (transferPayload 0xd6157318c6318c60 0xd6157318c6318c70
        1 4 ['S', 'Y', 'S'] "test memo".data) :=
  transfer_abi_roundtrip 0xd6157318c6318c60 0xd6157318c6318c70
    (by norm_num) (by norm_num) 1 (by norm_num) (by norm_num) 4 (by norm_num)
    ['S', 'Y', 'S'] (by decide) (by decide) (by decide)
    "test memo".data (by decide)

/-! ## Python-shaped values and the chain value types (§3, §4.4)

Modelled from the spec: `kudu.chain` is not in the visible source.  `PyVal`
models the Python value shapes the tests exchange with the codec (strings,
ints, None, bytes, tuples, lists, string-keyed dicts, and the native
`PermissionLevel`/`Action` objects).  Dict keys are unique in Python dicts, so
mapping comparison is by key lookup. -/

/-- A pair of validated names: `(actor, permission)` (§3).  Each name is
stored with its 64-bit encoding, established at construction. -/
structure PermissionLevel where
  actor : String
  actorV : Nat
  permission : String
  permV : Nat
deriving DecidableEq

/-- `(account, name, authorization, data)` (§3); `data` is an opaque byte
sequence until decoded via an ABI. -/
structure Action where
  account : String
  accountV : Nat
  name : String
  nameV : Nat
  authorization : List PermissionLevel
  data : List Nat
deriving DecidableEq

inductive PyVal where
  | pstr : String → PyVal
  | pint : Int → PyVal
  | pnone : PyVal
  | pbytes : List Nat → PyVal
  | ptuple : List PyVal → PyVal
  | plist : List PyVal → PyVal
  | pdict : List (String × PyVal) → PyVal
  | pperm : PermissionLevel → PyVal
  | pact : Action → PyVal

/-- The single `ValueError`-class failure kind of construction (§4.4, §7):
name validation failures surface as `ValueError` too (`test_name`). -/
inductive TxErr where
  | valueError : TxErr
deriving DecidableEq

/-- Binary form of a permission level: actor name ++ permission name (§3). -/
def PermissionLevel.to_bytes (p : PermissionLevel) : List Nat :=
  nameBytes p.actorV ++ nameBytes p.permV

/-- Dict projection of a permission level. -/
def PermissionLevel.to_dict (p : PermissionLevel) : PyVal :=
  .pdict [("actor", .pstr p.actor), ("permission", .pstr p.permission)]

/-- Binary form of an action: account ++ name ++ varint-length-prefixed
authorization vector ++ varint-length-prefixed data bytes (§3). -/
def Action.to_bytes (a : Action) : List Nat :=
  nameBytes a.accountV ++ nameBytes a.nameV ++
    (varintEncode a.authorization.length ++
      (a.authorization.map PermissionLevel.to_bytes).flatten) ++
    (varintEncode a.data.length ++ a.data)

/-- Dict projection of an action: `{account, name, authorization, data:hex}`
(§3). -/
def Action.to_dict (a : Action) : PyVal :=
  .pdict [("account", .pstr a.account), ("name", .pstr a.name),
    ("authorization", .plist (a.authorization.map PermissionLevel.to_dict)),
    ("data", .pstr (bytesToHex a.data))]

/-- Dict projection with `data` replaced by the ABI-decoded field mapping
(`Action.decoded()`, §4.4). -/
def Action.decodedDict (a : Action) (m : List (String × String)) : PyVal :=
  .pdict [("account", .pstr a.account), ("name", .pstr a.name),
    ("authorization", .plist (a.authorization.map PermissionLevel.to_dict)),
    ("data", .pdict (m.map fun kv => (kv.1, .pstr kv.2)))]

/-- Construct a validated permission level from a `{actor, permission}` dict. -/
def PermissionLevel.fromPy (v : PyVal) : Except TxErr PermissionLevel :=
  match v with
  | .pdict kvs =>
    match List.lookup "actor" kvs, List.lookup "permission" kvs with
    | some (.pstr a), some (.pstr pm) =>
      match name_encode a, name_encode pm with
      | .ok av, .ok pv => .ok ⟨a, av, pm, pv⟩
      | _, _ => .error .valueError
    | _, _ => .error .valueError
  | _ => .error .valueError

/-- Construct a validated action from its dict form (`data` as hex text). -/
def Action.fromPy (v : PyVal) : Except TxErr Action :=
  match v with
  | .pdict kvs =>
    match List.lookup "account" kvs, List.lookup "name" kvs,
        List.lookup "authorization" kvs, List.lookup "data" kvs with
    | some (.pstr acc), some (.pstr nm), some (.plist auths), some (.pstr dat) =>
      match name_encode acc, name_encode nm,
          auths.mapM PermissionLevel.fromPy, hexToBytes dat.data with
      | .ok accv, .ok nmv, .ok pls, some bs => .ok ⟨acc, accv, nm, nmv, pls, bs⟩
      | _, _, _, _ => .error .valueError
    | _, _, _, _ => .error .valueError
  | _ => .error .valueError

/-! ### Timestamps

Modelled from the spec: the transaction `expiration` is a timestamp, 4-byte
epoch seconds on the wire (§3), `"YYYY-MM-DDTHH:MM:SS.mmm"` in dict form
(fixture).  The civil-date arithmetic is proleptic Gregorian over years from
1970. -/

def isLeap (y : Nat) : Bool := y % 4 = 0 ∧ (y % 100 ≠ 0 ∨ y % 400 = 0)

def daysInMonth (y m : Nat) : Nat :=
  if m = 2 then (if isLeap y then 29 else 28)
  else if m = 4 ∨ m = 6 ∨ m = 9 ∨ m = 11 then 30
  else 31

/-- Epoch seconds of a UTC civil date-time. -/
def civilToEpoch (y mo d h mi s : Nat) : Nat :=
  (((List.range (y - 1970)).map (fun i => if isLeap (1970 + i) then 366 else 365)).sum
    + ((List.range (mo - 1)).map (fun m => daysInMonth y (m + 1))).sum
    + (d - 1)) * 86400 + h * 3600 + mi * 60 + s

/-- Find the civil year of a day count from 1970 (fuel-bounded scan). -/
def yearFrom : Nat → Nat → Nat → Nat × Nat
  | 0, y, days => (y, days)
  | f + 1, y, days =>
    let len := if isLeap y then 366 else 365
    if days < len then (y, days) else yearFrom f (y + 1) (days - len)

/-- Find the month of a day count inside a year (fuel-bounded scan). -/
def monthFrom (y : Nat) : Nat → Nat → Nat → Nat × Nat
  | 0, m, days => (m, days)
  | f + 1, m, days =>
    if days < daysInMonth y m then (m, days)
    else monthFrom y f (m + 1) (days - daysInMonth y m)

/-- Civil date-time of an epoch-seconds value. -/
def epochToCivil (t : Nat) : Nat × Nat × Nat × Nat × Nat × Nat :=
  let days := t / 86400
  let rem := t % 86400
  let yd := yearFrom days 1970 days
  let md := monthFrom yd.1 12 1 yd.2
  (yd.1, md.1, md.2 + 1, rem / 3600, rem / 60 % 60, rem % 60)

/-- Zero-padded decimal rendering. -/
def padNum (w n : Nat) : List Char :=
  List.replicate (w - (renderNat n).length) '0' ++ renderNat n

/-- `"YYYY-MM-DDTHH:MM:SS.000"` rendering of epoch seconds (the wire format
carries whole seconds, so the millisecond field is always zero). -/
def renderTimestamp (t : Nat) : String :=
  match epochToCivil t with
  | (y, mo, d, h, mi, s) =>
    ⟨padNum 4 y ++ '-' :: padNum 2 mo ++ '-' :: padNum 2 d ++ 'T' ::
      padNum 2 h ++ ':' :: padNum 2 mi ++ ':' :: padNum 2 s ++ ".000".data⟩

/-- Parse an ISO `"YYYY-MM-DDTHH:MM:SS[.mmm]"` timestamp to epoch seconds
(the fractional part is ignored on the wire). -/
def parseTimestamp (l : List Char) : Option Nat :=
  match l with
  | y1 :: y2 :: y3 :: y4 :: '-' :: m1 :: m2 :: '-' :: d1 :: d2 :: 'T' ::
      h1 :: h2 :: ':' :: i1 :: i2 :: ':' :: s1 :: s2 :: rest =>
    let ds := [y1, y2, y3, y4, m1, m2, d1, d2, h1, h2, i1, i2, s1, s2]
    let fracOk : Bool :=
      match rest with
      | [] => true
      | '.' :: ms => isDigits ms ∧ ms ≠ []
      | _ => false
    if isDigits ds ∧ fracOk then
      some (civilToEpoch (parseNat [y1, y2, y3, y4]) (parseNat [m1, m2])
        (parseNat [d1, d2]) (parseNat [h1, h2]) (parseNat [i1, i2])
        (parseNat [s1, s2]))
    else none
  | _ => none

/-- Transaction (§3): header fields plus the three ordered sequences.
Extensions are `(type, data)` pairs. -/
structure Transaction where
  expiration : Nat
  ref_block_num : Nat
  ref_block_prefix : Nat
  max_net_usage_words : Nat
  max_cpu_usage_ms : Nat
  delay_sec : Nat
  context_free_actions : List Action
  actions : List Action
  transaction_extensions : List (Nat × List Nat)
deriving DecidableEq

/-- Binary form (§3): expiration (4-byte epoch seconds) ++ ref_block_num
(2 bytes) ++ ref_block_prefix (4 bytes) ++ max_net_usage_words (varint) ++
max_cpu_usage_ms (1 byte) ++ delay_sec (varint) ++ the three varint-length-
prefixed sequences; all integers little-endian. -/
def Transaction.to_bytes (t : Transaction) : List Nat :=
  natLEBytes 4 t.expiration ++ natLEBytes 2 t.ref_block_num ++
    natLEBytes 4 t.ref_block_prefix ++ varintEncode t.max_net_usage_words ++
    [t.max_cpu_usage_ms] ++ varintEncode t.delay_sec ++
    (varintEncode t.context_free_actions.length ++
      (t.context_free_actions.map Action.to_bytes).flatten) ++
    (varintEncode t.actions.length ++ (t.actions.map Action.to_bytes).flatten) ++
    (varintEncode t.transaction_extensions.length ++
      (t.transaction_extensions.map
        (fun e => natLEBytes 2 e.1 ++ varintEncode e.2.length ++ e.2)).flatten)

/-- Dict projection, fields in the canonical §3 order. -/
def Transaction.to_dict (t : Transaction) : PyVal :=
  .pdict [("expiration", .pstr (renderTimestamp t.expiration)),
    ("ref_block_num", .pint t.ref_block_num),
    ("ref_block_prefix", .pint t.ref_block_prefix),
    ("max_net_usage_words", .pint t.max_net_usage_words),
    ("max_cpu_usage_ms", .pint t.max_cpu_usage_ms),
    ("delay_sec", .pint t.delay_sec),
    ("context_free_actions", .plist (t.context_free_actions.map Action.to_dict)),
    ("actions", .plist (t.actions.map Action.to_dict)),
    ("transaction_extensions", .plist (t.transaction_extensions.map
      (fun e => .plist [.pint e.1, .pstr (bytesToHex e.2)])))]

/-- An optional numeric field with a default and an exclusive upper bound. -/
def lookNat (k : String) (kvs : List (String × PyVal)) (bound : Nat) :
    Except TxErr Nat :=
  match List.lookup k kvs with
  | none => .ok 0
  | some (.pint n) => if 0 ≤ n ∧ n < bound then .ok n.toNat else .error .valueError
  | some _ => .error .valueError

/-- An optional list-of-actions field, defaulting to the empty sequence. -/
def lookActions (k : String) (kvs : List (String × PyVal)) :
    Except TxErr (List Action) :=
  match List.lookup k kvs with
  | none => .ok []
  | some (.plist l) => l.mapM Action.fromPy
  | some _ => .error .valueError

/-- One transaction extension, `[type, hex-data]`. -/
def extFromPy (v : PyVal) : Except TxErr (Nat × List Nat) :=
  match v with
  | .plist [.pint ty, .pstr h] =>
    match hexToBytes h.data with
    | some bs => if 0 ≤ ty ∧ ty < 2 ^ 16 then .ok (ty.toNat, bs) else .error .valueError
    | none => .error .valueError
  | _ => .error .valueError

/-- The optional `expiration` field, an ISO timestamp string. -/
def lookExpiration (kvs : List (String × PyVal)) : Except TxErr Nat :=
  match List.lookup "expiration" kvs with
  | none => .ok 0
  | some (.pstr s) =>
    match parseTimestamp s.data with
    | some e => if e < 2 ^ 32 then .ok e else .error .valueError
    | none => .error .valueError
  | some _ => .error .valueError

/-- The optional `transaction_extensions` field. -/
def lookExtensions (kvs : List (String × PyVal)) :
    Except TxErr (List (Nat × List Nat)) :=
  match List.lookup "transaction_extensions" kvs with
  | none => .ok []
  | some (.plist l) => l.mapM extFromPy
  | some _ => .error .valueError

/-- Construct a `Transaction` from a structured mapping; every field is
optional with a zero/empty default, and any input that is not a mapping fails
with the `ValueError` kind rather than an unrelated internal exception
(§3/§4.4). -/
def Transaction.fromPy (v : PyVal) : Except TxErr Transaction :=
  match v with
  | .pdict kvs =>
    (lookExpiration kvs).bind fun expiration =>
    (lookNat "ref_block_num" kvs (2 ^ 16)).bind fun rbn =>
    (lookNat "ref_block_prefix" kvs (2 ^ 32)).bind fun rbp =>
    (lookNat "max_net_usage_words" kvs (2 ^ 64)).bind fun mnet =>
    (lookNat "max_cpu_usage_ms" kvs 256).bind fun mcpu =>
    (lookNat "delay_sec" kvs (2 ^ 64)).bind fun delay =>
    (lookActions "context_free_actions" kvs).bind fun cfa =>
    (lookActions "actions" kvs).bind fun acts =>
    (lookExtensions kvs).map fun exts =>
    ⟨expiration, rbn, rbp, mnet, mcpu, delay, cfa, acts, exts⟩
  | _ => .error .valueError

/-- The `test_types.py` ACTION fixture. -/
def actionFixture : PyVal :=
  .pdict [("account", .pstr "eosio.token"), ("name", .pstr "transfer"),
    ("authorization", .plist [.pdict [("actor", .pstr "useraaaaaaaa"),
      ("permission", .pstr "active")]]),
    ("data", .pstr "608c31c6187315d6708c31c6187315d60100000000000000045359530000000000")]

/-- The `test_types.py` TX fixture. -/
def txFixture : PyVal :=
  .pdict [("expiration", .pstr "2018-06-27T20:33:54.000"),
    ("ref_block_num", .pint 45323),
    ("ref_block_prefix", .pint 2628749070),
    ("max_net_usage_words", .pint 0),
    ("max_cpu_usage_ms", .pint 0),
    ("delay_sec", .pint 0),
    ("context_free_actions", .plist []),
    ("actions", .plist [actionFixture]),
    ("transaction_extensions", .plist [])]

/-- The `test_types.py` TX_HEX fixture. -/
def txHexFixture : String :=
  "b2f4335b0bb10e87af9c000000000100a6823403ea3055000000572d3ccdcd01608c31c6187315d600000000a8ed323221608c31c6187315d6708c31c6187315d6010000000000000004535953000000000000"

set_option maxRecDepth 100000 in
/-- C3: the `Transaction` built from the TX fixture dict (expiration
`"2018-06-27T20:33:54.000"`, ref_block_num 45323, ref_block_prefix
2628749070, zero resource limits, one eosio.token transfer action)
serializes to exactly the TX_HEX fixture string, and `to_dict()` reproduces
the original dict. -/
theorem transaction_fixture_roundtrip :
    (Transaction.fromPy txFixture).map
        (fun t => (bytesToHex t.to_bytes, t.to_dict)) =
      Except.ok (txHexFixture, txFixture) := by rfl

/-- C7: constructing a `Transaction` from any input that is not a structured
mapping — in particular a bare string — fails with the `ValueError` kind, the
construction function being total (it cannot surface any other failure). -/
theorem transaction_malformed_input :
    (∀ v : PyVal, (∀ kvs, v ≠ PyVal.pdict kvs) →
      Transaction.fromPy v = Except.error TxErr.valueError) ∧
    Transaction.fromPy (PyVal.pstr "this should fail gracefully") =
      Except.error TxErr.valueError := by
  constructor
  · intro v hv
    cases v
    case pdict kvs => exact absurd rfl (hv kvs)
    all_goals rfl
  · rfl

theorem transaction_malformed_input_witness :
    Transaction.fromPy (PyVal.pint 42) = Except.error TxErr.valueError :=
  transaction_malformed_input.1 (PyVal.pint 42) (fun _ h => PyVal.noConfusion h)

/-! ## Multi-shape equality for PermissionLevel and Action (§4.4, §9)

Modelled from the spec: comparison coerces the right-hand operand into the
canonical field set; unrecognized shapes compare unequal rather than failing
(the comparison functions are total, so no exception can escape). -/

/-- Name-vs-text comparison on the underlying 64-bit value (§3: equality
operates on the integer; invalid text compares unequal). -/
def nameEqStr (v : Nat) (s : String) : Bool :=
  match name_encode s with
  | .ok w => v == w
  | .error _ => false

/-- Python `PermissionLevel.__eq__`: the native type on the encoded fields, a
2-tuple positionally, or a dict on the `actor`/`permission` keys. -/
def PermissionLevel.eqPy (p : PermissionLevel) (r : PyVal) : Bool :=
  match r with
  | .pperm q => p.actorV == q.actorV && p.permV == q.permV
  | .ptuple [.pstr a, .pstr b] => nameEqStr p.actorV a && nameEqStr p.permV b
  | .pdict kvs =>
    kvs.length == 2 &&
    (match List.lookup "actor" kvs, List.lookup "permission" kvs with
     | some (.pstr a), some (.pstr b) =>
       nameEqStr p.actorV a && nameEqStr p.permV b
     | _, _ => false)
  | _ => false

/-- Elementwise comparison of an authorization sequence with a Python list. -/
def authsEqPy : List PermissionLevel → List PyVal → Bool
  | [], [] => true
  | p :: ps, r :: rs => p.eqPy r && authsEqPy ps rs
  | _, _ => false

/-- Comparison of raw action data against an operand: hex text (the encoded
projection), raw bytes, or a decoded field mapping compared as a Python dict
(§3: equality holds against either the encoded-dict or decoded-dict
projection). -/
def dataEqPy (data : List Nat) (d : PyVal) : Bool :=
  match d with
  | .pstr h => h == bytesToHex data
  | .pbytes bs => bs == data
  | .pdict m =>
    match transfer_decode_data data with
    | some dec =>
      m.length == dec.length &&
      dec.all (fun kv =>
        match List.lookup kv.1 m with
        | some (.pstr v) => v == kv.2
        | _ => false)
    | none => false
  | _ => false

/-- Python `Action.__eq__`: the native type on all fields, a 4-tuple
positionally, or a dict on the `account`/`name`/`authorization`/`data` keys,
with `data` accepted in encoded or decoded form. -/
def Action.eqPy (a : Action) (r : PyVal) : Bool :=
  match r with
  | .pact b => a.accountV == b.accountV && a.nameV == b.nameV &&
      a.authorization == b.authorization && a.data == b.data
  | .ptuple [.pstr acc, .pstr nm, .plist auths, d] =>
      nameEqStr a.accountV acc && nameEqStr a.nameV nm &&
      authsEqPy a.authorization auths && dataEqPy a.data d
  | .pdict kvs =>
    kvs.length == 4 &&
    (match List.lookup "account" kvs, List.lookup "name" kvs,
        List.lookup "authorization" kvs, List.lookup "data" kvs with
     | some (.pstr acc), some (.pstr nm), some (.plist auths), some d =>
       nameEqStr a.accountV acc && nameEqStr a.nameV nm &&
       authsEqPy a.authorization auths && dataEqPy a.data d
     | _, _, _, _ => false)
  | _ => false

/-- The stored name encodings agree with the name texts. -/
def PermissionLevel.wf (p : PermissionLevel) : Prop :=
  name_encode p.actor = .ok p.actorV ∧ name_encode p.permission = .ok p.permV

/-- The stored name encodings agree with the name texts, recursively. -/
def Action.wf (a : Action) : Prop :=
  name_encode a.account = .ok a.accountV ∧ name_encode a.name = .ok a.nameV ∧
  ∀ pl ∈ a.authorization, pl.wf

lemma nameEqStr_self {v : Nat} {s : String} (h : name_encode s = .ok v) :
    nameEqStr v s = true := by
  rw [nameEqStr, h]
  simp

lemma pl_eqPy_to_dict {p : PermissionLevel} (h : p.wf) :
    p.eqPy p.to_dict = true := by
  rw [PermissionLevel.to_dict, PermissionLevel.eqPy]
  have l1 : List.lookup "actor" [("actor", PyVal.pstr p.actor),
      ("permission", PyVal.pstr p.permission)] = some (PyVal.pstr p.actor) := rfl
  have l2 : List.lookup "permission" [("actor", PyVal.pstr p.actor),
      ("permission", PyVal.pstr p.permission)] = some (PyVal.pstr p.permission) := rfl
  rw [l1, l2]
  simp [nameEqStr_self h.1, nameEqStr_self h.2]

lemma authsEqPy_to_dict (ps : List PermissionLevel)
    (h : ∀ p ∈ ps, p.wf) : authsEqPy ps (ps.map PermissionLevel.to_dict) = true := by
  induction ps with
  | nil => rfl
  | cons p rest ih =>
    rw [List.map_cons, authsEqPy, pl_eqPy_to_dict (h p (by simp)),
      ih (fun q hq => h q (List.mem_cons_of_mem _ hq))]
    rfl

lemma transfer_decode_data_shape {bs : List Nat} {m : List (String × String)}
    (h : transfer_decode_data bs = some m) :
    ∃ f t q mo, m = [("from", f), ("to", t), ("quantity", q), ("memo", mo)] := by
  rw [transfer_decode_data, transferFields] at h
  simp only [decodeStruct] at h
  cases h1 : decodeField FieldType.nameT bs with
  | none => rw [h1] at h; simp at h
  | some p1 =>
    rw [h1] at h
    simp only [Option.some_bind] at h
    cases h2 : decodeField FieldType.nameT p1.2 with
    | none => rw [h2] at h; simp at h
    | some p2 =>
      rw [h2] at h
      simp only [Option.some_bind] at h
      cases h3 : decodeField FieldType.assetT p2.2 with
      | none => rw [h3] at h; simp at h
      | some p3 =>
        rw [h3] at h
        simp only [Option.some_bind] at h
        cases h4 : decodeField FieldType.stringT p3.2 with
        | none => rw [h4] at h; simp at h
        | some p4 =>
          rw [h4] at h
          simp only [Option.some_bind, Option.map_some'] at h
          cases hr : p4.2 with
          | nil =>
            rw [hr] at h
            simp only [Option.some.injEq] at h
            exact ⟨p1.1, p2.1, p3.1, p4.1, h.symm⟩
          | cons x xs => rw [hr] at h; simp at h

lemma dataEqPy_decoded {data : List Nat} {m : List (String × String)}
    (h : transfer_decode_data data = some m) :
    dataEqPy data (.pdict (m.map fun kv => (kv.1, .pstr kv.2))) = true := by
  obtain ⟨f, t, q, mo, rfl⟩ := transfer_decode_data_shape h
  rw [dataEqPy, h]
  have l1 : List.lookup "from" [("from", PyVal.pstr f), ("to", PyVal.pstr t),
      ("quantity", PyVal.pstr q), ("memo", PyVal.pstr mo)] = some (PyVal.pstr f) := rfl
  have l2 : List.lookup "to" [("from", PyVal.pstr f), ("to", PyVal.pstr t),
      ("quantity", PyVal.pstr q), ("memo", PyVal.pstr mo)] = some (PyVal.pstr t) := rfl
  have l3 : List.lookup "quantity" [("from", PyVal.pstr f), ("to", PyVal.pstr t),
      ("quantity", PyVal.pstr q), ("memo", PyVal.pstr mo)] = some (PyVal.pstr q) := rfl
  have l4 : List.lookup "memo" [("from", PyVal.pstr f), ("to", PyVal.pstr t),
      ("quantity", PyVal.pstr q), ("memo", PyVal.pstr mo)] = some (PyVal.pstr mo) := rfl
  simp only [List.map_cons, List.map_nil, List.all_cons, List.all_nil, l1, l2, l3, l4]
  simp

/-- C8: equality for `PermissionLevel` and `Action` accepts the native type
with equal fields, an equivalent dict keyed on the relevant field names (for
`Action`, with `data` in either encoded-hex or decoded-mapping form), and a
tuple of the fields in positional order; every operand of any other shape
compares unequal, and the comparison functions are total, so no exception
can be raised. -/
theorem equality_shapes :
    (∀ p : PermissionLevel, p.wf →
      p.eqPy (.pperm p) = true ∧
      p.eqPy p.to_dict = true ∧
      p.eqPy (.ptuple [.pstr p.actor, .pstr p.permission]) = true) ∧
    (∀ (p : PermissionLevel) (r : PyVal),
      (∀ q, r ≠ .pperm q) → (∀ l, r ≠ .ptuple l) → (∀ kvs, r ≠ .pdict kvs) →
      p.eqPy r = false) ∧
    (∀ p : PermissionLevel,
      p.eqPy (.pdict [("actor", .pint 23), ("permission", .pnone)]) = false) ∧
    (∀ a : Action, a.wf →
      a.eqPy (.pact a) = true ∧
      a.eqPy a.to_dict = true ∧
      a.eqPy (.ptuple [.pstr a.account, .pstr a.name,
        .plist (a.authorization.map PermissionLevel.to_dict),
        .pstr (bytesToHex a.data)]) = true ∧
      (∀ m, transfer_decode_data a.data = some m →
        a.eqPy (a.decodedDict m) = true)) ∧
    (∀ (a : Action) (r : PyVal),
      (∀ b, r ≠ .pact b) → (∀ l, r ≠ .ptuple l) → (∀ kvs, r ≠ .pdict kvs) →
      a.eqPy r = false) := by
  refine ⟨?_, ?_, ?_, ?_, ?_⟩
  · intro p hp
    refine ⟨?_, pl_eqPy_to_dict hp, ?_⟩
    · simp [PermissionLevel.eqPy]
    · rw [PermissionLevel.eqPy, nameEqStr_self hp.1, nameEqStr_self hp.2]
      rfl
  · intro p r h1 h2 h3
    cases r
    case pperm q => exact absurd rfl (h1 q)
    case ptuple l => exact absurd rfl (h2 l)
    case pdict kvs => exact absurd rfl (h3 kvs)
    all_goals rfl
  · intro p
    rfl
  · intro a ha
    obtain ⟨h1, h2, h3⟩ := ha
    have htup : nameEqStr a.accountV a.account = true := nameEqStr_self h1
    have hnm : nameEqStr a.nameV a.name = true := nameEqStr_self h2
    have hauth := authsEqPy_to_dict a.authorization h3
    refine ⟨by simp [Action.eqPy], ?_, ?_, ?_⟩
    · rw [Action.to_dict, Action.eqPy]
      have l1 : List.lookup "account" [("account", PyVal.pstr a.account),
          ("name", PyVal.pstr a.name),
          ("authorization", PyVal.plist (a.authorization.map PermissionLevel.to_dict)),
          ("data", PyVal.pstr (bytesToHex a.data))] = some (PyVal.pstr a.account) := rfl
      have l2 : List.lookup "name" [("account", PyVal.pstr a.account),
          ("name", PyVal.pstr a.name),
          ("authorization", PyVal.plist (a.authorization.map PermissionLevel.to_dict)),
          ("data", PyVal.pstr (bytesToHex a.data))] = some (PyVal.pstr a.name) := rfl
      have l3 : List.lookup "authorization" [("account", PyVal.pstr a.account),
          ("name", PyVal.pstr a.name),
          ("authorization", PyVal.plist (a.authorization.map PermissionLevel.to_dict)),
          ("data", PyVal.pstr (bytesToHex a.data))] =
          some (PyVal.plist (a.authorization.map PermissionLevel.to_dict)) := rfl
      have l4 : List.lookup "data" [("account", PyVal.pstr a.account),
          ("name", PyVal.pstr a.name),
          ("authorization", PyVal.plist (a.authorization.map PermissionLevel.to_dict)),
          ("data", PyVal.pstr (bytesToHex a.data))] =
          some (PyVal.pstr (bytesToHex a.data)) := rfl
      rw [l1, l2, l3, l4]
      simp [htup, hnm, hauth, dataEqPy]
    · rw [Action.eqPy, htup, hnm, hauth]
      simp [dataEqPy]
    · intro m hm
      rw [Action.decodedDict, Action.eqPy]
      have l1 : List.lookup "account" [("account", PyVal.pstr a.account),
          ("name", PyVal.pstr a.name),
          ("authorization", PyVal.plist (a.authorization.map PermissionLevel.to_dict)),
          ("data", PyVal.pdict (m.map fun kv => (kv.1, PyVal.pstr kv.2)))] =
          some (PyVal.pstr a.account) := rfl
      have l2 : List.lookup "name" [("account", PyVal.pstr a.account),
          ("name", PyVal.pstr a.name),
          ("authorization", PyVal.plist (a.authorization.map PermissionLevel.to_dict)),
          ("data", PyVal.pdict (m.map fun kv => (kv.1, PyVal.pstr kv.2)))] =
          some (PyVal.pstr a.name) := rfl
      have l3 : List.lookup "authorization" [("account", PyVal.pstr a.account),
          ("name", PyVal.pstr a.name),
          ("authorization", PyVal.plist (a.authorization.map PermissionLevel.to_dict)),
          ("data", PyVal.pdict (m.map fun kv => (kv.1, PyVal.pstr kv.2)))] =
          some (PyVal.plist (a.authorization.map PermissionLevel.to_dict)) := rfl
      have l4 : List.lookup "data" [("account", PyVal.pstr a.account),
          ("name", PyVal.pstr a.name),
          ("authorization", PyVal.plist (a.authorization.map PermissionLevel.to_dict)),
          ("data", PyVal.pdict (m.map fun kv => (kv.1, PyVal.pstr kv.2)))] =
          some (PyVal.pdict (m.map fun kv => (kv.1, PyVal.pstr kv.2))) := rfl
      rw [l1, l2, l3, l4]
      simp [htup, hnm, hauth, dataEqPy_decoded hm]
  · intro a r h1 h2 h3
    cases r
    case pact b => exact absurd rfl (h1 b)
    case ptuple l => exact absurd rfl (h2 l)
    case pdict kvs => exact absurd rfl (h3 kvs)
    all_goals rfl

theorem equality_shapes_witness :
    (PermissionLevel.eqPy ⟨"eosio", 0x5530ea0000000000, "active", 0x3232eda800000000⟩
      (PermissionLevel.to_dict
        ⟨"eosio", 0x5530ea0000000000, "active", 0x3232eda800000000⟩) = true) ∧
    (PermissionLevel.eqPy ⟨"eosio", 0x5530ea0000000000, "active", 0x3232eda800000000⟩
      (.pstr "eosio") = false) :=
  ⟨(equality_shapes.1 ⟨"eosio", 0x5530ea0000000000, "active", 0x3232eda800000000⟩
      ⟨by decide, by decide⟩).2.1,
   equality_shapes.2.1 ⟨"eosio", 0x5530ea0000000000, "active", 0x3232eda800000000⟩
      (.pstr "eosio") (fun q h => PyVal.noConfusion h)
      (fun l h => PyVal.noConfusion h) (fun kvs h => PyVal.noConfusion h)⟩

/-! ## The RPC subcommand proxy

Translated from `python/kudu/__init__.py`: `SubcommandProxy.__getattr__`
returns a new proxy with one more path segment, and `__call__` dispatches on
the argument shape — no arguments is a GET on `'/' + '/'.join(path)`; exactly
one positional argument that is a dict (and no keywords) passes that dict as
the params of `client.call`; only keyword arguments gather them into the
params dict; anything else raises `ValueError` without calling the client. -/

/-- The API requests a proxy invocation can issue. -/
inductive APICall where
  | get : String → APICall
  | call : String → List (String × PyVal) → APICall

/-- `SubcommandProxy.__getattr__`: one attribute access appends one segment. -/
def proxyAttr (path : List String) (subpath : String) : List String :=
  path ++ [subpath]

/-- `SubcommandProxy.__call__`.  The Python `elif` chain is rendered as an
ordered match: no arguments at all is the GET; a single positional dict with
no keywords passes that dict; no positionals (so at least one keyword, the
previous arm having caught the empty call) passes the keyword dict; every
remaining shape is the `ValueError` branch. -/
def proxyCall (path : List String) (args : List PyVal)
    (kwargs : List (String × PyVal)) : Except TxErr APICall :=
  let p := "/" ++ String.intercalate "/" path
  match args, kwargs with
  | [], [] => .ok (.get p)
  | [.pdict d], [] => .ok (.call p d)
  | [], _ => .ok (.call p kwargs)
  | _, _ => .error .valueError

lemma foldl_proxyAttr (names : List String) :
    ∀ acc, names.foldl proxyAttr acc = acc ++ names := by
  induction names with
  | nil => intro acc; simp
  | cons n rest ih =>
    intro acc
    rw [List.foldl_cons, ih, proxyAttr]
    simp

/-- C9: a proxy built by chaining attribute accesses carries exactly those
path segments, and invocation dispatches on the argument shape: no arguments
is a GET on `'/' + '/'.join(segments)`; a single positional dict (no
keywords) or only keywords issue `client.call` on that path with those
params; every other shape — positionals mixed with keywords, several
positionals, or a single non-dict positional — is a `ValueError` and issues
no client request. -/
theorem proxy_dispatch :
    (∀ names : List String, names.foldl proxyAttr [] = names) ∧
    (∀ segs : List String,
      proxyCall segs [] [] = .ok (.get ("/" ++ String.intercalate "/" segs))) ∧
    (∀ (segs : List String) (d : List (String × PyVal)),
      proxyCall segs [.pdict d] [] =
        .ok (.call ("/" ++ String.intercalate "/" segs) d)) ∧
    (∀ (segs : List String) (kw : List (String × PyVal)), kw ≠ [] →
      proxyCall segs [] kw =
        .ok (.call ("/" ++ String.intercalate "/" segs) kw)) ∧
    (∀ (segs : List String) (args : List PyVal) (kw : List (String × PyVal)),
      args ≠ [] → (∀ d, ¬(args = [PyVal.pdict d] ∧ kw = [])) →
      proxyCall segs args kw = .error .valueError) := by
  refine ⟨fun names => by simpa using foldl_proxyAttr names [], ?_, ?_, ?_, ?_⟩
  · intro segs
    rfl
  · intro segs d
    rfl
  · intro segs kw hkw
    cases kw with
    | nil => exact absurd rfl hkw
    | cons k ks => rfl
  · intro segs args kw hargs hshape
    cases args with
    | nil => exact absurd rfl hargs
    | cons a as =>
      cases as with
      | cons b bs => cases a <;> rfl
      | nil =>
        cases a
        case pdict d =>
          cases kw with
          | nil => exact absurd ⟨rfl, rfl⟩ (hshape d)
          | cons k ks => rfl
        all_goals rfl

theorem proxy_dispatch_witness :
    proxyCall ["v1", "chain", "get_info"] [] [("x", PyVal.pint 1)] =
      .ok (.call "/v1/chain/get_info" [("x", PyVal.pint 1)]) ∧
    proxyCall ["v1", "chain"] [PyVal.pstr "oops"] [] = .error .valueError :=
  ⟨proxy_dispatch.2.2.2.1 ["v1", "chain", "get_info"] [("x", PyVal.pint 1)]
      (by simp),
   proxy_dispatch.2.2.2.2 ["v1", "chain"] [PyVal.pstr "oops"] []
      (by simp) (by intro d h; cases h.1)⟩

/-! ## The development wallet

Translated from `python/kudu/wallet.py`: `Wallet.load` opens the wallet file
and replaces `public_keys`/`private_keys` with the parsed JSON's `public` and
`private` mappings; a missing file (`FileNotFoundError`) is caught, a warning
is logged and the mappings are left untouched.  The filesystem is modelled as
the parsed JSON content of the wallet file, `none` when the file does not
exist; an uncaught Python exception (missing key, non-dict JSON) is an
`error` result. -/

structure Wallet where
  public_keys : List (String × String)
  private_keys : List (String × String)
deriving DecidableEq

/-- One `account -> key text` mapping from a JSON dict. -/
def keyMapFromPy (v : PyVal) : Except TxErr (List (String × String)) :=
  match v with
  | .pdict kvs => kvs.mapM fun kv =>
    match kv.2 with
    | .pstr s => Except.ok (kv.1, s)
    | _ => .error .valueError
  | _ => .error .valueError

/-- `Wallet.load`. -/
def Wallet.load (w : Wallet) (content : Option PyVal) : Except TxErr Wallet :=
  match content with
  | none => .ok w
  | some j =>
    match j with
    | .pdict kvs =>
      match List.lookup "public" kvs, List.lookup "private" kvs with
      | some pub, some priv =>
        (keyMapFromPy pub).bind fun pubs =>
          (keyMapFromPy priv).map fun privs => ⟨pubs, privs⟩
      | _, _ => .error .valueError
    | _ => .error .valueError

/-- C10: loading when the wallet file does not exist does not raise — the
`FileNotFoundError` is caught — and both key mappings are exactly as they
were before the call. -/
theorem wallet_load_missing_file (w : Wallet) :
    Wallet.load w none = Except.ok w := rfl

/-! ## RIPEMD-160

Modelled from the spec (§4.2): key text checksums are the first 4 bytes of a
RIPEMD-160 digest of the key bytes, salted with the curve tag in the modern
format.  Standard RIPEMD-160 over byte strings; 32-bit words as `Nat` with
explicit `% 2 ^ 32`. -/

def rotl32 (s x : Nat) : Nat := (x * 2 ^ s + x / 2 ^ (32 - s)) % 2 ^ 32

def rmdF (j x y z : Nat) : Nat :=
  if j < 16 then x ^^^ y ^^^ z
  else if j < 32 then (x &&& y) ||| ((x ^^^ 0xFFFFFFFF) &&& z)
  else if j < 48 then (x ||| (y ^^^ 0xFFFFFFFF)) ^^^ z
  else if j < 64 then (x &&& z) ||| (y &&& (z ^^^ 0xFFFFFFFF))
  else x ^^^ (y ||| (z ^^^ 0xFFFFFFFF))

def rmdK : List Nat := [0, 0x5A827999, 0x6ED9EBA1, 0x8F1BBCDC, 0xA953FD4E]

def rmdKK : List Nat := [0x50A28BE6, 0x5C4DD124, 0x6D703EF3, 0x7A6D76E9, 0]

def rmdR : List Nat :=
  [0, 1, 2, 3, 4, 5, 6, 7, 8, 9, 10, 11, 12, 13, 14, 15,
   7, 4, 13, 1, 10, 6, 15, 3, 12, 0, 9, 5, 2, 14, 11, 8,
   3, 10, 14, 4, 9, 15, 8, 1, 2, 7, 0, 6, 13, 11, 5, 12,
   1, 9, 11, 10, 0, 8, 12, 4, 13, 3, 7, 15, 14, 5, 6, 2,
   4, 0, 5, 9, 7, 12, 2, 10, 14, 1, 3, 8, 11, 6, 15, 13]

def rmdRR : List Nat :=
  [5, 14, 7, 0, 9, 2, 11, 4, 13, 6, 15, 8, 1, 10, 3, 12,
   6, 11, 3, 7, 0, 13, 5, 10, 14, 15, 8, 12, 4, 9, 1, 2,
   15, 5, 1, 3, 7, 14, 6, 9, 11, 8, 12, 2, 10, 0, 4, 13,
   8, 6, 4, 1, 3, 11, 15, 0, 5, 12, 2, 13, 9, 7, 10, 14,
   12, 15, 10, 4, 1, 5, 8, 7, 6, 2, 13, 14, 0, 3, 9, 11]

def rmdS : List Nat :=
  [11, 14, 15, 12, 5, 8, 7, 9, 11, 13, 14, 15, 6, 7, 9, 8,
   7, 6, 8, 13, 11, 9, 7, 15, 7, 12, 15, 9, 11, 7, 13, 12,
   11, 13, 6, 7, 14, 9, 13, 15, 14, 8, 13, 6, 5, 12, 7, 5,
   11, 12, 14, 15, 14, 15, 9, 8, 9, 14, 5, 6, 8, 6, 5, 12,
   9, 15, 5, 11, 6, 8, 13, 12, 5, 12, 13, 14, 11, 8, 5, 6]

def rmdSS : List Nat :=
  [8, 9, 9, 11, 13, 15, 15, 5, 7, 7, 8, 11, 14, 14, 12, 6,
   9, 13, 15, 7, 12, 8, 9, 11, 7, 7, 12, 7, 6, 15, 13, 11,
   9, 7, 15, 11, 8, 6, 6, 14, 12, 13, 5, 14, 13, 13, 7, 5,
   15, 5, 8, 11, 14, 14, 6, 14, 6, 9, 12, 9, 12, 5, 15, 8,
   8, 5, 12, 9, 12, 5, 14, 6, 8, 13, 6, 5, 15, 13, 11, 11]

/-- One round of one line; `left` selects the left or the parallel line. -/
def rmdStep (X : List Nat) (left : Bool) (st : Nat × Nat × Nat × Nat × Nat)
    (j : Nat) : Nat × Nat × Nat × Nat × Nat :=
  match st with
  | (a, b, c, d, e) =>
    let fv := if left then rmdF j b c d else rmdF (79 - j) b c d
    let k := if left then rmdK.getD (j / 16) 0 else rmdKK.getD (j / 16) 0
    let r := if left then rmdR.getD j 0 else rmdRR.getD j 0
    let s := if left then rmdS.getD j 0 else rmdSS.getD j 0
    let t := (rotl32 s ((a + fv + X.getD r 0 + k) % 2 ^ 32) + e) % 2 ^ 32
    (e, t, b, rotl32 10 c, d)

/-- Compress one 16-word block into the 5-word state. -/
def rmdCompress (h : List Nat) (X : List Nat) : List Nat :=
  let h0 := h.getD 0 0
  let h1 := h.getD 1 0
  let h2 := h.getD 2 0
  let h3 := h.getD 3 0
  let h4 := h.getD 4 0
  let L := (List.range 80).foldl (rmdStep X true) (h0, h1, h2, h3, h4)
  let R := (List.range 80).foldl (rmdStep X false) (h0, h1, h2, h3, h4)
  match L, R with
  | (al, bl, cl, dl, el), (ar, br, cr, dr, er) =>
    [(h1 + cl + dr) % 2 ^ 32, (h2 + dl + er) % 2 ^ 32, (h3 + el + ar) % 2 ^ 32,
     (h4 + al + br) % 2 ^ 32, (h0 + bl + cr) % 2 ^ 32]

/-- Merkle–Damgård padding: `0x80`, zeros to 56 mod 64, 8-byte LE bit length. -/
def rmdPad (msg : List Nat) : List Nat :=
  msg ++ 0x80 :: List.replicate ((119 - msg.length % 64) % 64) 0 ++
    natLEBytes 8 (msg.length * 8)

/-- Four little-endian bytes per 32-bit word. -/
def bytesToWordsLE : List Nat → List Nat
  | b0 :: b1 :: b2 :: b3 :: rest =>
    (b0 + 256 * (b1 + 256 * (b2 + 256 * b3))) :: bytesToWordsLE rest
  | _ => []

/-- Split into 64-byte blocks (fuel-bounded, any fuel at least the length). -/
def chunks64 : Nat → List Nat → List (List Nat)
  | 0, _ => []
  | _ + 1, [] => []
  | f + 1, bs => bs.take 64 :: chunks64 f (bs.drop 64)

/-- The RIPEMD-160 digest (20 bytes) of a byte string. -/
def ripemd160 (msg : List Nat) : List Nat :=
  let padded := rmdPad msg
  (((chunks64 padded.length padded).foldl
      (fun h blk => rmdCompress h (bytesToWordsLE blk))
      [0x67452301, 0xEFCDAB89, 0x98BADCFE, 0x10325476, 0xC3D2E1F0]).map
    (natLEBytes 4)).flatten

/-- Base58Check-style checksum: first 4 bytes of the RIPEMD-160 digest. -/
def rmdChecksum (payload : List Nat) : List Nat := (ripemd160 payload).take 4

/-! ## Base58

Modelled from the spec (§4.2, glossary): positional base-58 over the Bitcoin
alphabet, each leading zero byte rendered as a leading `'1'`. -/

def b58Chars : List Char :=
  "123456789ABCDEFGHJKLMNPQRSTUVWXYZabcdefghijkmnopqrstuvwxyz".data

/-- Digit value of a base58 character (58 when outside the alphabet). -/
def b58Idx (c : Char) : Nat := b58Chars.indexOf c

/-- Character of a base58 digit. -/
def b58Digit (d : Nat) : Char := b58Chars.getD d '1'

/-- Base58 rendering of a byte string. -/
def b58EncodeChars (bs : List Nat) : List Char :=
  let n := bs.foldl (fun a b => a * 256 + b) 0
  List.replicate (bs.takeWhile (fun b => b = 0)).length '1' ++
    (digitsRevB 58 n n).reverse.map b58Digit

/-- Base58 parsing into a byte string; fails on characters outside the
alphabet. -/
def b58DecodeChars (l : List Char) : Option (List Nat) :=
  if l.all (fun c => b58Idx c < 58) then
    let n := l.foldl (fun a c => a * 58 + b58Idx c) 0
    some (List.replicate (l.takeWhile (fun c => c = '1')).length 0 ++
      (digitsRevB 256 n n).reverse)
  else none

/-! ### Base58 round trip -/

lemma foldl_base (B : Nat) : ∀ (l : List Nat) (acc : Nat),
    l.foldl (fun a b => a * B + b) acc = acc * B ^ l.length + Nat.ofDigits B l.reverse
  | [], acc => by simp
  | b :: t, acc => by
    rw [List.foldl_cons, foldl_base B t (acc * B + b), List.reverse_cons,
      Nat.ofDigits_append, List.length_cons]
    have hb : Nat.ofDigits B [b] = b := by simp [Nat.ofDigits]
    rw [hb, List.length_reverse]
    ring

lemma foldl_base_replicate_zero (B : Nat) : ∀ k : Nat,
    (List.replicate k 0).foldl (fun a b => a * B + b) 0 = 0
  | 0 => rfl
  | k + 1 => by
    rw [List.replicate_succ, List.foldl_cons]
    simpa using foldl_base_replicate_zero B k

lemma b58Idx_mem {c : Char} (h : b58Idx c < 58) : c ∈ b58Chars := by
  have hl : b58Chars.length = 58 := rfl
  exact List.indexOf_lt_length.mp (by rw [hl]; exact h)

lemma b58Digit_b58Idx {c : Char} (h : b58Idx c < 58) : b58Digit (b58Idx c) = c := by
  have h1 : b58Idx c < b58Chars.length := h
  rw [b58Digit, List.getD_eq_getElem _ _ h1]
  exact List.getElem_indexOf h1

lemma b58Idx_ne_zero {c : Char} (hv : b58Idx c < 58) (h : c ≠ '1') : b58Idx c ≠ 0 := by
  intro h0
  have := b58Digit_b58Idx hv
  rw [h0] at this
  exact h this.symm

/-- Decoding a valid base58 string and re-encoding yields the same string. -/
theorem b58_encode_decode {l : List Char} {bs : List Nat}
    (h : b58DecodeChars l = some bs) : b58EncodeChars bs = l := by
  rw [b58DecodeChars] at h
  split at h
  case isFalse => exact absurd h (by simp)
  case isTrue hall =>
    have hval : ∀ c ∈ l, b58Idx c < 58 := by
      intro c hc
      simpa using List.all_eq_true.mp hall c hc
    simp only [Option.some.injEq] at h
    subst h
    set z := (l.takeWhile (fun c => decide (c = '1'))).length with hz
    set t := l.dropWhile (fun c => decide (c = '1')) with ht
    have hsplit : l = List.replicate z '1' ++ t := by
      have h1 := List.takeWhile_append_dropWhile (fun c => decide (c = '1')) l
      have h2 : l.takeWhile (fun c => decide (c = '1')) = List.replicate z '1' := by
        rw [hz]
        apply List.eq_replicate_of_mem
        intro b hb
        exact of_decide_eq_true
          (@List.mem_takeWhile_imp Char (fun c => decide (c = '1')) l b hb)
      rw [← h2, h1]
    have hvalt : ∀ c ∈ t, b58Idx c < 58 := by
      intro c hc
      exact hval c ((List.dropWhile_sublist _).subset (ht ▸ hc))
    have hfold : ∀ (m : List Char) (acc : Nat),
        m.foldl (fun a c => a * 58 + b58Idx c) acc =
        (m.map b58Idx).foldl (fun a b => a * 58 + b) acc := by
      intro m
      induction m with
      | nil => intro acc; rfl
      | cons c cs ih =>
        intro acc
        rw [List.foldl_cons, List.map_cons, List.foldl_cons, ih]
    have hn : l.foldl (fun a c => a * 58 + b58Idx c) 0 =
        Nat.ofDigits 58 (t.map b58Idx).reverse := by
      conv_lhs => rw [hsplit]
      rw [List.foldl_append]
      have hrep : (List.replicate z '1').foldl (fun a c => a * 58 + b58Idx c) 0 = 0 := by
        rw [hfold, List.map_replicate, show b58Idx '1' = 0 from rfl]
        exact foldl_base_replicate_zero 58 z
      rw [hrep, hfold, foldl_base 58]
      simp
    set n := l.foldl (fun a c => a * 58 + b58Idx c) 0 with hnn
    have hd256 : digitsRevB 256 n n = Nat.digits 256 n :=
      digitsRevB_eq_digits 256 (by norm_num) n n le_rfl
    rw [hd256]
    by_cases hnil : t = []
    · have hn0 : n = 0 := by rw [hn, hnil]; rfl
      rw [b58EncodeChars, hn0]
      rw [Nat.digits_zero]
      simp only [List.reverse_nil, List.append_nil, List.foldl_nil]
      rw [List.takeWhile_eq_self_iff.mpr (by
        intro x hx
        exact decide_eq_true (List.eq_of_mem_replicate hx))]
      rw [List.length_replicate]
      rw [show (List.replicate z (0 : Nat)).foldl (fun a b => a * 256 + b) 0 = 0 from
        foldl_base_replicate_zero 256 z]
      rw [show digitsRevB 58 0 0 = [] from rfl]
      simp only [List.reverse_nil, List.map_nil, List.append_nil]
      rw [hsplit, hnil, List.append_nil]
    · obtain ⟨c, rest, hct⟩ : ∃ c rest, t = c :: rest := by
        cases hx : t with
        | nil => exact absurd hx hnil
        | cons c rest => exact ⟨c, rest, rfl⟩
      have hc1 : c ≠ '1' := by
        have hw : l.dropWhile (fun x => decide (x = '1')) ≠ [] := by
          rw [← ht, hct]; simp
        have hhd := List.head_dropWhile_not (fun x => decide (x = '1')) l hw
        have hhead : (l.dropWhile (fun x => decide (x = '1'))).head hw = c := by
          simp [← ht, hct]
        rw [hhead] at hhd
        simpa using hhd
      have hcval : b58Idx c < 58 := hvalt c (by rw [hct]; simp)
      have hc0 : b58Idx c ≠ 0 := b58Idx_ne_zero hcval hc1
      have hn_pos : n ≠ 0 := by
        rw [hn, hct]
        simp only [List.map_cons, List.reverse_cons, Nat.ofDigits_append]
        have h1 : Nat.ofDigits 58 [b58Idx c] = b58Idx c := by simp [Nat.ofDigits]
        rw [h1]
        have h2 : 0 < (58 : Nat) ^ (rest.map b58Idx).reverse.length * b58Idx c :=
          Nat.mul_pos (by positivity) (by omega)
        omega
      have hL : (t.map b58Idx).reverse = (rest.map b58Idx).reverse ++ [b58Idx c] := by
        rw [hct]; simp
      have hdigits : Nat.digits 58 n = (rest.map b58Idx).reverse ++ [b58Idx c] := by
        rw [hn, hL]
        apply Nat.digits_ofDigits 58 (by norm_num)
        · intro d hd
          rcases List.mem_append.mp hd with h1 | h2
          · obtain ⟨x, hx, rfl⟩ := List.mem_map.mp (List.mem_reverse.mp h1)
            exact hvalt x (by rw [hct]; exact List.mem_cons_of_mem _ hx)
          · rw [List.mem_singleton.mp h2]
            exact hcval
        · intro hne
          have hgl : ((rest.map b58Idx).reverse ++ [b58Idx c]).getLast hne = b58Idx c := by
            rw [List.getLast_append]
            simp
          rw [hgl]
          exact hc0
      -- the byte string: leading zeros and value
      obtain ⟨d, ds, hds⟩ : ∃ d ds, (Nat.digits 256 n).reverse = d :: ds := by
        have hne : Nat.digits 256 n ≠ [] := Nat.digits_ne_nil_iff_ne_zero.mpr hn_pos
        cases hx : (Nat.digits 256 n).reverse with
        | nil => exact absurd (List.reverse_eq_nil_iff.mp hx) hne
        | cons d ds => exact ⟨d, ds, rfl⟩
      have hd_ne : d ≠ 0 := by
        have hne : Nat.digits 256 n ≠ [] := Nat.digits_ne_nil_iff_ne_zero.mpr hn_pos
        have h1 : (Nat.digits 256 n).getLast? = some d := by
          rw [List.getLast?_eq_head?_reverse, hds]
          rfl
        have h2 := List.getLast?_eq_getLast_of_ne_nil hne
        rw [h1] at h2
        have h3 : d = (Nat.digits 256 n).getLast hne := by
          injection h2
        rw [h3]
        exact Nat.getLast_digit_ne_zero 256 hn_pos
      rw [b58EncodeChars, hds]
      have htake : ((List.replicate z 0 ++ d :: ds).takeWhile (fun b => decide (b = 0))) =
          List.replicate z 0 := by
        rw [takeWhile_append_all _ _ _ (by
          intro x hx
          exact decide_eq_true (List.eq_of_mem_replicate hx)),
          List.takeWhile_cons, decide_eq_false hd_ne]
        simp
      have hfoldbs : (List.replicate z 0 ++ d :: ds).foldl (fun a b => a * 256 + b) 0 = n := by
        rw [List.foldl_append, foldl_base_replicate_zero 256 z, ← hds, foldl_base 256]
        simp [Nat.ofDigits_digits]
      rw [htake, hfoldbs, List.length_replicate]
      have hd58 : digitsRevB 58 n n = Nat.digits 58 n :=
        digitsRevB_eq_digits 58 (by norm_num) n n le_rfl
      rw [hd58, hdigits, ← hL, List.reverse_reverse]
      have hback : (t.map b58Idx).map b58Digit = t := by
        rw [List.map_map]
        have : ∀ c ∈ t, (b58Digit ∘ b58Idx) c = id c := by
          intro x hx
          simp [Function.comp, b58Digit_b58Idx (hvalt x hx)]
        rw [List.map_congr_left this, List.map_id]
      rw [hback, ← hsplit]

/-! ## Key codec

Modelled from the spec (§4.2) and the key fixtures of `test_crypto`: modern
text forms are `PVT_<CURVE>_`/`PUB_<CURVE>_` followed by the Base58 rendering
of the raw key bytes with a 4-byte RIPEMD-160 checksum salted with the curve
tag; the legacy public form is `EOS` followed by the Base58 rendering of the
33 key bytes with an unsalted 4-byte RIPEMD-160 checksum.  Serialization
always emits the modern form. -/

inductive Curve
  | k1
  | r1
deriving DecidableEq

inductive KeyKind
  | pubKey
  | privKey
deriving DecidableEq

/-- A parsed key: kind, curve and raw key bytes. -/
structure KeyVal where
  kind : KeyKind
  curve : Curve
  keyBytes : List Nat
deriving DecidableEq

/-- The checksum salt: the ASCII bytes of the curve tag. -/
def curveTag : Curve → List Nat
  | .k1 => [75, 49]
  | .r1 => [82, 49]

/-- The characters of the curve tag. -/
def curveChars : Curve → List Char
  | .k1 => ['K', '1']
  | .r1 => ['R', '1']

/-- Raw key length in bytes: 33 for public, 32 for private keys. -/
def keyLen : KeyKind → Nat
  | .pubKey => 33
  | .privKey => 32

/-- The characters of the kind tag. -/
def kindChars : KeyKind → List Char
  | .pubKey => ['P', 'U', 'B']
  | .privKey => ['P', 'V', 'T']

/-- The modern-form header, e.g. `PVT_R1_`. -/
def keyHeader (kind : KeyKind) (curve : Curve) : List Char :=
  kindChars kind ++ '_' :: curveChars curve ++ ['_']

inductive KeyErr
  | badHeader
  | invalidChar
  | badLength
  | badChecksum
deriving DecidableEq

/-- Strip a fixed leading segment, returning the remainder on match. -/
def dropStart : List Char → List Char → Option (List Char)
  | [], l => some l
  | _ :: _, [] => none
  | a :: ps, b :: ls => if a = b then dropStart ps ls else none

/-- Validate a decoded modern payload: raw key bytes followed by the 4-byte
curve-salted checksum. -/
def parseModernPayload (kind : KeyKind) (curve : Curve) (payload : List Nat) :
    Except KeyErr KeyVal :=
  if payload.length = keyLen kind + 4 then
    if payload.drop (keyLen kind) =
        rmdChecksum (payload.take (keyLen kind) ++ curveTag curve) then
      .ok ⟨kind, curve, payload.take (keyLen kind)⟩
    else .error .badChecksum
  else .error .badLength

/-- Parse the Base58 tail of a modern-form key text. -/
def parseModern (kind : KeyKind) (curve : Curve) (t : List Char) :
    Except KeyErr KeyVal :=
  match b58DecodeChars t with
  | none => .error .invalidChar
  | some payload => parseModernPayload kind curve payload

/-- Validate a decoded legacy public payload: 33 key bytes followed by the
unsalted 4-byte checksum. -/
def parseLegacyPayload (payload : List Nat) : Except KeyErr KeyVal :=
  if payload.length = 37 then
    if payload.drop 33 = rmdChecksum (payload.take 33) then
      .ok ⟨.pubKey, .k1, payload.take 33⟩
    else .error .badChecksum
  else .error .badLength

/-- Parse the Base58 tail of a legacy `EOS` public key text. -/
def parseLegacyPub (t : List Char) : Except KeyErr KeyVal :=
  match b58DecodeChars t with
  | none => .error .invalidChar
  | some payload => parseLegacyPayload payload

/-- Parse a key text, dispatching on its header. -/
def parseKeyChars (l : List Char) : Except KeyErr KeyVal :=
  match dropStart (keyHeader .privKey .k1) l with
  | some t => parseModern .privKey .k1 t
  | none =>
  match dropStart (keyHeader .privKey .r1) l with
  | some t => parseModern .privKey .r1 t
  | none =>
  match dropStart (keyHeader .pubKey .k1) l with
  | some t => parseModern .pubKey .k1 t
  | none =>
  match dropStart (keyHeader .pubKey .r1) l with
  | some t => parseModern .pubKey .r1 t
  | none =>
  match dropStart ['E', 'O', 'S'] l with
  | some t => parseLegacyPub t
  | none => .error .badHeader

/-- Serialize a key: always the modern form. -/
def serializeKeyChars (k : KeyVal) : List Char :=
  keyHeader k.kind k.curve ++
    b58EncodeChars (k.keyBytes ++ rmdChecksum (k.keyBytes ++ curveTag k.curve))

/-- Parse a key text given as a string. -/
def parseKey (s : String) : Except KeyErr KeyVal := parseKeyChars s.data

/-- Serialize a key to a string. -/
def serializeKey (k : KeyVal) : String := String.mk (serializeKeyChars k)

/-! ### Key round trip -/

lemma parseKeyChars_header (kind : KeyKind) (curve : Curve) (t : List Char) :
    parseKeyChars (keyHeader kind curve ++ t) = parseModern kind curve t := by
  cases kind <;> cases curve <;> rfl

lemma parseModern_roundtrip {kind : KeyKind} {curve : Curve} {t : List Char}
    {k : KeyVal} (h : parseModern kind curve t = Except.ok k) :
    serializeKeyChars k = keyHeader kind curve ++ t := by
  rw [parseModern] at h
  cases hdec : b58DecodeChars t with
  | none => rw [hdec] at h; exact absurd h (by simp)
  | some payload =>
    rw [hdec] at h
    dsimp only at h
    rw [parseModernPayload] at h
    by_cases hlen : payload.length = keyLen kind + 4
    · rw [if_pos hlen] at h
      by_cases hchk : payload.drop (keyLen kind) =
          rmdChecksum (payload.take (keyLen kind) ++ curveTag curve)
      · rw [if_pos hchk] at h
        injection h with h
        subst h
        rw [serializeKeyChars]
        congr 1
        rw [← hchk, List.take_append_drop]
        exact b58_encode_decode hdec
      · rw [if_neg hchk] at h
        exact absurd h (by simp)
    · rw [if_neg hlen] at h
      exact absurd h (by simp)

/-- The Base58 tail of the `PVT_R1_` fixture key. -/
def pvtR1TailChars : List Char :=
  "PtoxLPzJZURZmPS4e26pjBiAn41mkkLPrET5qHnwDvbvqFEL6".data

/-- The 32 raw key bytes of the `PVT_R1_` fixture key. -/
def pvtR1KeyBytes : List Nat :=
  [51, 251, 98, 30, 120, 213, 220, 120, 240, 2, 155, 111, 215, 20, 191, 227,
   180, 47, 228, 183, 43, 193, 9, 5, 21, 145, 231, 31, 32, 77, 40, 19]

set_option maxRecDepth 1000000 in
/-- C1 (counterexample): parsing the legacy public key text
`"EOS1111111111111111111111111111111114T1Anm"` succeeds (its unsalted
RIPEMD-160 checksum is valid), but re-serializing emits the modern
`PUB_K1_` form, which is not byte-identical to the input. -/
theorem key_roundtrip_cex :
    Except.map serializeKey
        (parseKey "EOS1111111111111111111111111111111114T1Anm") =
      Except.ok "PUB_K1_11111111111111111111111111111111149Mr2R" ∧
    "PUB_K1_11111111111111111111111111111111149Mr2R" ≠
      "EOS1111111111111111111111111111111114T1Anm" :=
  ⟨by rfl, by decide⟩

set_option maxRecDepth 1000000 in
/-- C1 (amended): every modern-form key text round-trips byte-identically —
if a text made of a `PVT_`/`PUB_` header and an arbitrary tail parses
successfully, serializing the parsed key reproduces exactly the input — and
in particular the `PVT_R1_Ptox...` fixture round-trips to itself; the legacy
`EOS...` fixture instead parses successfully but re-serializes to the modern
text `"PUB_K1_11111111111111111111111111111111149Mr2R"`. -/
theorem key_text_roundtrip :
    (∀ (kind : KeyKind) (curve : Curve) (t : List Char) (k : KeyVal),
        parseKey (String.mk (keyHeader kind curve ++ t)) = Except.ok k →
        serializeKey k = String.mk (keyHeader kind curve ++ t)) ∧
    Except.map serializeKey
        (parseKey "PVT_R1_PtoxLPzJZURZmPS4e26pjBiAn41mkkLPrET5qHnwDvbvqFEL6") =
      Except.ok "PVT_R1_PtoxLPzJZURZmPS4e26pjBiAn41mkkLPrET5qHnwDvbvqFEL6" ∧
    Except.map serializeKey
        (parseKey "EOS1111111111111111111111111111111114T1Anm") =
      Except.ok "PUB_K1_11111111111111111111111111111111149Mr2R" := by
  refine ⟨?_, by rfl, by rfl⟩
  intro kind curve t k h
  have h2 : parseKeyChars (keyHeader kind curve ++ t) = Except.ok k := h
  rw [parseKeyChars_header] at h2
  rw [serializeKey, parseModern_roundtrip h2]

set_option maxRecDepth 1000000 in
theorem key_text_roundtrip_witness :
    serializeKey ⟨KeyKind.privKey, Curve.r1, pvtR1KeyBytes⟩ =
      String.mk (keyHeader KeyKind.privKey Curve.r1 ++ pvtR1TailChars) :=
  key_text_roundtrip.1 KeyKind.privKey Curve.r1 pvtR1TailChars
    ⟨KeyKind.privKey, Curve.r1, pvtR1KeyBytes⟩ (by rfl)

end Kudu
